import Mathlib

/-! agbplay: envelope states, noise LFSR, sample descriptors and the sound exporter

A shallow embedding of `SampleStructs.h`, `src/CGBChannel.h` and
`src/SoundExporter.cpp`, followed by the theorems that settle the claims
C1 .. C10.

Conventions of the embedding

* `size_t` is 64 bits wide: every `size_t` sum or product is reduced modulo
  `SIZE_T_MOD`; `sf_count_t` is a signed 64 bit integer (`toSfCount`).
* A `float` sample is a value of an arbitrary type `α` with an addition and a
  zero.  No law of the addition is used, so every statement holds for IEEE
  addition as it holds for the integers used in the concrete examples.
* `std::vector<T>` is `List T`, `std::string` is `List Char` (one `Char` per
  C `char`).
* A `while (true)` loop takes a fuel argument that bounds its iterations;
  running out of fuel is the outcome `Outcome.outOfFuel`.
* Calls that leave the program (libsndfile, `std::filesystem`, the clock) are
  answered by an explicit environment record.
-/

namespace AgbPlay

/-! ## `SampleStructs.h` -/

/-- The enumeration `EnvState` of `SampleStructs.h`, in declaration order. -/
inductive EnvState
  | INIT
  | ATK
  | DEC
  | SUS
  | REL
  | DEAD
  deriving DecidableEq, Repr

/-- The integer value of an `EnvState` enumerator (`INIT = 0`, then counting up). -/
def EnvState.toNat : EnvState → Nat
  | .INIT => 0
  | .ATK => 1
  | .DEC => 2
  | .SUS => 3
  | .REL => 4
  | .DEAD => 5

/-- The enumeration `NoisePatt` of `SampleStructs.h`. -/
inductive NoisePatt
  | FINE
  | ROUGH
  deriving DecidableEq, Repr

/-- The struct `ADSR`: four `uint8_t` rates. -/
structure ADSR where
  att : Nat
  dec : Nat
  sus : Nat
  rel : Nat
  deriving DecidableEq, Repr

/-- The struct `Note`: two `uint8_t` fields and the `int8_t` length. -/
structure Note where
  midiKey : Nat
  velocity : Nat
  length : Int
  deriving DecidableEq, Repr

/-- The struct `SampleInfo`.  `P` stands for the pointer type `int8_t *`, `F` for
`float`; `loopPos` and `endPos` are `uint32_t`.  All five fields are public.
The two constructors are declared only; their bodies are not among the sources. -/
structure SampleInfo (P F : Type) where
  samplePtr : P
  midCfreq : F
  loopPos : Nat
  endPos : Nat
  loopEnabled : Bool
  deriving DecidableEq, Repr

/-! ## `src/CGBChannel.h` -/

/-- The macro `NOISE_SAMPLING_FREQ`, the literal `65536.0f`, as the rational it
denotes. -/
def NOISE_SAMPLING_FREQ : ℚ := 65536.0

/-- The value of a normal IEEE 754 binary32 number with the given sign bit,
biased exponent (1 .. 254) and 23 bit fraction. -/
def binary32Value (sign biasedExp fraction : Nat) : ℚ :=
  (if sign = 0 then 1 else -1) * (1 + (fraction : ℚ) / 2 ^ 23) * (2 : ℚ) ^ ((biasedExp : ℤ) - 127)

/-- The envelope part of the class `CGBChannel`: the data members of the header
that the envelope state machine reads or writes, with the header's default
member initialisers as the values a fresh voice starts from (see `CGBChannel.fresh`). -/
structure CGBChannel where
  env : ADSR
  note : Note
  eState : EnvState
  nextState : EnvState
  envInterStep : Nat
  envLevel : Nat
  envPeak : Nat
  envSustain : Nat
  fromEnvLevel : Nat
  track_idx : Nat
  deriving DecidableEq, Repr

/-- A voice as the header's default member initialisers leave it:
`eState = nextState = INIT`, all envelope counters zero. -/
def CGBChannel.fresh (track_idx : Nat) (env : ADSR) (note : Note) : CGBChannel :=
  { env := env, note := note, eState := .INIT, nextState := .INIT, envInterStep := 0,
    envLevel := 0, envPeak := 0, envSustain := 0, fromEnvLevel := 0, track_idx := track_idx }

/-- Modelled from the spec: the state machine that `CGBChannel::stepEnvelope` runs
when it advances (section 4.1 of the spec; `CGBChannel.cpp` is not among the
sources).  One case per state, in the spec's words:
INIT sets `envLevel = 0`, `envPeak = att` if `att < 255` else 255, and goes to ATK;
ATK sets `envLevel = min(envLevel + att, 255)` and goes to DEC when it is 255;
DEC sets `envLevel = max(floor(envLevel * dec / 256), sus)` and goes to SUS when
`envLevel ≤ sus`; SUS holds `envLevel = sus` and, if `sus == 0`, is immediately
DEAD; REL sets `envLevel = floor(envLevel * rel / 256)` and goes to DEAD when it
is 0; DEAD: the voice retires, nothing changes. -/
def CGBChannel.advanceEnvelope (c : CGBChannel) : CGBChannel :=
  match c.eState with
  | .INIT =>
    { c with envLevel := 0, envPeak := if c.env.att < 255 then c.env.att else 255,
             eState := .ATK }
  | .ATK =>
    let lvl := min (c.envLevel + c.env.att) 255
    { c with envLevel := lvl, eState := if lvl = 255 then .DEC else .ATK }
  | .DEC =>
    let lvl := max (c.envLevel * c.env.dec / 256) c.env.sus
    { c with envLevel := lvl, eState := if lvl ≤ c.env.sus then .SUS else .DEC }
  | .SUS =>
    { c with envLevel := c.env.sus, eState := if c.env.sus = 0 then .DEAD else .SUS }
  | .REL =>
    let lvl := c.envLevel * c.env.rel / 256
    { c with envLevel := lvl, eState := if lvl = 0 then .DEAD else .REL }
  | .DEAD => c

/-- Modelled from the spec: `CGBChannel::stepEnvelope` (declared in
`CGBChannel.h`, defined in `CGBChannel.cpp`, which is not among the sources).
The spec: "`stepEnvelope` only advances the state machine every 4th
sample-block boundary", with `envInterStep ∈ 0..3`; the level of the previous
frame is kept in `fromEnvLevel`.  The counter cycles through 0, 1, 2, 3 and the
state machine advances when it stands at 0. -/
def CGBChannel.stepEnvelope (c : CGBChannel) : CGBChannel :=
  let c1 := if c.envInterStep = 0 then { c.advanceEnvelope with fromEnvLevel := c.envLevel } else c
  { c1 with envInterStep := (c.envInterStep + 1) % 4 }

/-- Modelled from the spec: `CGBChannel::Release(bool fastRelease)` (declared in
`CGBChannel.h`, defined in `CGBChannel.cpp`, which is not among the sources).
The spec: "`Release(fastRelease=false)` forces transition to REL.  With
`fastRelease=true`, the release rate is overridden to a fixed fast value".
`fastRel` is that fixed value, which the spec does not give. -/
def CGBChannel.Release (fastRel : Nat) (c : CGBChannel) (fastRelease : Bool) : CGBChannel :=
  { c with eState := .REL,
           env := if fastRelease then { c.env with rel := fastRel } else c.env }

/-- The operations on a voice that the claim names. -/
inductive EnvOp
  | stepEnvelope
  | Release (fastRelease : Bool)
  | TickNote
  deriving DecidableEq, Repr

/-- One operation applied to a voice.  `tickNote` stands for what
`CGBChannel::TickNote` does to the voice: the header declares it ("returns true
if note remains active"), its body is not among the sources and the spec does
not describe it, so it is a parameter and every statement about `applyOp` holds
for every choice of it. -/
def CGBChannel.applyOp (fastRel : Nat) (tickNote : CGBChannel → CGBChannel) (c : CGBChannel) :
    EnvOp → CGBChannel
  | .stepEnvelope => c.stepEnvelope
  | .Release fastRelease => c.Release fastRel fastRelease
  | .TickNote => tickNote c

/-- The run of a sequence of operations on a voice, as the list of its steps: for
every operation the value of `eState` before it, the operation, and the value of
`eState` after it.  Every operation of the sequence is applied, also to a voice
that is DEAD. -/
def CGBChannel.steps (fastRel : Nat) (tickNote : CGBChannel → CGBChannel) :
    CGBChannel → List EnvOp → List (EnvState × EnvOp × EnvState)
  | _, [] => []
  | c, op :: ops =>
    (c.eState, op, (c.applyOp fastRel tickNote op).eState) ::
      CGBChannel.steps fastRel tickNote (c.applyOp fastRel tickNote op) ops

/-- The values `eState` takes in a run: the state before the first operation and
the state after each operation of the sequence. -/
def CGBChannel.stateTrace (fastRel : Nat) (tickNote : CGBChannel → CGBChannel) :
    CGBChannel → List EnvOp → List EnvState
  | c, [] => [c.eState]
  | c, op :: ops =>
    c.eState :: CGBChannel.stateTrace fastRel tickNote (c.applyOp fastRel tickNote op) ops

/-- The transition relation of the claim: from a state to itself (no change) or
to its immediate successor in the order of the enumeration. -/
def EnvState.SuccessorOrSame (a b : EnvState) : Prop :=
  b = a ∨ b.toNat = a.toNat + 1

/-- What one step does to `eState` in the envelope model, from `a` to `b`:
`stepEnvelope` leaves it, moves it to the immediate successor, or moves it from
SUS to DEAD; `Release` moves it to REL; nothing is said of `TickNote`. -/
def EnvOp.StepLegal (a : EnvState) (op : EnvOp) (b : EnvState) : Prop :=
  match op with
  | .stepEnvelope => b = a ∨ b.toNat = a.toNat + 1 ∨ (a = .SUS ∧ b = .DEAD)
  | .Release _ => b = .REL
  | .TickNote => True

instance (a b : EnvState) : Decidable (EnvState.SuccessorOrSame a b) := by
  unfold EnvState.SuccessorOrSame
  infer_instance

instance (a : EnvState) (op : EnvOp) (b : EnvState) : Decidable (EnvOp.StepLegal a op b) := by
  cases op <;> simp only [EnvOp.StepLegal] <;> infer_instance

/-! ### The noise channel's shift register -/

/-- Modelled from the spec: the register width of the noise LFSR, "fine (15-bit
LFSR), rough (7-bit LFSR)"; the generator lives in `CGBChannel.cpp`, which is
not among the sources. -/
def lfsrWidth : NoisePatt → Nat
  | .FINE => 15
  | .ROUGH => 7

/-- Modelled from the spec: "The LFSR is initialized to all-ones on note start". -/
def lfsrSeed (np : NoisePatt) : Nat := 2 ^ lfsrWidth np - 1

/-- Modelled from the spec: one step of the noise LFSR, "taps {bit 0, bit 1},
feedback XOR": the feedback bit is bit 0 XOR bit 1, the register shifts right by
one and the feedback bit enters at the top bit, the arrangement of the Game Boy
noise channel, in which the two tap bits are the next to leave the register (the
generator lives in `CGBChannel.cpp`, which is not among the sources). -/
def lfsrStep (np : NoisePatt) (s : Nat) : Nat :=
  let fb := (s ^^^ (s >>> 1)) &&& 1
  (s >>> 1) ||| (fb <<< (lfsrWidth np - 1))

/-- The register after `2 ^ k` steps, computed by repeated doubling; the match
forces the intermediate register value before the second half runs.  It equals
`(lfsrStep np)^[2 ^ k]` (`lfsrPow2_eq`) and only serves to evaluate long runs. -/
def lfsrPow2 (np : NoisePatt) : Nat → Nat → Nat
  | 0, s => lfsrStep np s
  | k + 1, s =>
    match lfsrPow2 np k s with
    | 0 => lfsrPow2 np k 0
    | t + 1 => lfsrPow2 np k (t + 1)

/-! ## `src/SoundExporter.cpp`: `exportSong` -/

/-- The number of values of `size_t` (64 bit). -/
def SIZE_T_MOD : Nat := 2 ^ 64

/-- Modelled from the spec: the constant `N_CHANNELS` comes from `Constants.h`,
which is not among the sources; the spec's blocks are "interleaved stereo",
two channels. -/
def N_CHANNELS : Nat := 2

/-- The conversion `sf_count_t(x)` of a `size_t` to a signed 64 bit integer. -/
def toSfCount (x : Nat) : Int :=
  if x % SIZE_T_MOD < 2 ^ 63 then ((x % SIZE_T_MOD : Nat) : Int)
  else ((x % SIZE_T_MOD : Nat) : Int) - 2 ^ 64

/-- How a run of the exporter ends: it returns, an `assert` fails, a read leaves
its buffer, or the fuel of a loop runs out. -/
inductive Outcome (ρ : Type)
  | returned (r : ρ)
  | assertFailed
  | outOfBounds
  | outOfFuel
  deriving DecidableEq, Repr

/-- Sequencing of outcomes: the continuation runs only after a return. -/
def Outcome.bind {ρ τ : Type} : Outcome ρ → (ρ → Outcome τ) → Outcome τ
  | .returned r, f => f r
  | .assertFailed, _ => .assertFailed
  | .outOfBounds, _ => .outOfBounds
  | .outOfFuel, _ => .outOfFuel

/-- An outcome that is a failed assertion or a read out of bounds. -/
def Outcome.IsFault {ρ : Type} : Outcome ρ → Prop
  | .assertFailed => True
  | .outOfBounds => True
  | _ => False

/-- The interface of `StreamGenerator` that `exportSong` uses, over a state type
`σ`: `ProcessAndGetAudio` advances the state and yields the per-track buffers,
`HasStreamEnded` reads the state, `GetBufferUnitCount` is fixed at construction. -/
structure StreamGenerator (σ α : Type) where
  ProcessAndGetAudio : σ → σ × List (List α)
  HasStreamEnded : σ → Bool
  GetBufferUnitCount : Nat

/-- The answers of libsndfile: `opens i` tells whether the `sf_open` call for
file number `i` (the track index in separate mode, 0 for the single file of
combined mode) returns a handle; `accept len req` is the number of items one
`sf_write_float` call writes when the file holds `len` items and `req > 0` items
are requested (0 on a write error). -/
structure SndFileEnv where
  opens : Nat → Bool
  accept : Nat → Nat → Nat

/-- What `exportSong` leaves behind when it returns: the returned
`blocksRendered`, the number of `ProcessAndGetAudio` calls it made (a ghost
counter), and the items of every file in `sf_open` order (`none` for a file that
did not open). -/
structure ExportRun (α : Type) where
  blocksRendered : Nat
  calls : Nat
  files : List (Option (List α))
  deriving DecidableEq, Repr

/-- One call `sf_write_float(file, buf.data() + off, items)`: the library writes
at most `items` items, as many as `accept` says, and returns their number; a
non-positive `items` writes nothing.  The call is `none` when the range
`buf[off .. off + items)` it is given leaves the buffer. -/
def sf_write_float {α : Type} (env : SndFileEnv) (file buf : List α) (off : Nat) (items : Int) :
    Option (List α × Nat) :=
  if items ≤ 0 then some (file, 0)
  else if off + items.toNat ≤ buf.length then
    let w := min (env.accept file.length items.toNat) items.toNat
    some (file ++ (buf.drop off).take w, w)
  else none

/-- The loop
`do { processed += sf_write_float(f, buf + processed, cnt - processed); } while (processed < cnt);`
started at `processed`. -/
def writeAll {α : Type} (env : SndFileEnv) (cnt : Int) (buf : List α) :
    Nat → List α → Int → Outcome (List α)
  | 0, _, _ => .outOfFuel
  | fuel + 1, file, processed =>
    match sf_write_float env file buf processed.toNat (cnt - processed) with
    | none => .outOfBounds
    | some (file1, w) =>
      if processed + (w : Int) < cnt then writeAll env cnt buf fuel file1 (processed + (w : Int))
      else .returned file1

/-- The loop `for (i = 0; i < b.size(); i++) renderedData[i] += b[i];`. -/
def addTrack {α : Type} [Add α] [Zero α] (renderedData b : List α) : List α :=
  (List.range b.length).foldl (fun rd i => rd.set i (rd.getD i 0 + b.getD i 0)) renderedData

/-- The loop over `rbuffers` of combined mode: for every `b`,
`assert(b.size() == renderedData.size())`, then `addTrack`. -/
def mixTracks {α : Type} [Add α] [Zero α] : List α → List (List α) → Outcome (List α)
  | renderedData, [] => .returned renderedData
  | renderedData, b :: rest =>
    if b.length = renderedData.length then mixTracks (addTrack renderedData b) rest
    else .assertFailed

/-- The `while (true)` loop of benchmark mode. -/
def benchmarkLoop {σ α : Type} (G : StreamGenerator σ α) :
    Nat → σ → Nat → Nat → Outcome (ExportRun α)
  | 0, _, _, _ => .outOfFuel
  | fuel + 1, s, calls, blocksRendered =>
    let s1 := (G.ProcessAndGetAudio s).1
    let blocksRendered1 := (blocksRendered + G.GetBufferUnitCount) % SIZE_T_MOD
    if G.HasStreamEnded s1 then
      .returned { blocksRendered := blocksRendered1, calls := calls + 1, files := [] }
    else benchmarkLoop G fuel s1 (calls + 1) blocksRendered1

/-- The `while (true)` loop of combined mode, with the output file open.  `n` is
`nBlocks * N_CHANNELS` as a `size_t`; `wfuel` is the fuel of each write loop. -/
def combinedLoop {σ α : Type} [Add α] [Zero α] (G : StreamGenerator σ α) (env : SndFileEnv)
    (nTracks n wfuel : Nat) :
    Nat → σ → Nat → Nat → List α → List α → Outcome (ExportRun α)
  | 0, _, _, _, _, _ => .outOfFuel
  | fuel + 1, s, calls, blocksRendered, ofile, renderedData =>
    let r := G.ProcessAndGetAudio s
    if G.HasStreamEnded r.1 then
      .returned { blocksRendered := blocksRendered, calls := calls + 1, files := [some ofile] }
    else if r.2.length ≠ nTracks then .assertFailed
    else
      (mixTracks (List.replicate renderedData.length 0) r.2).bind fun mixed =>
      (writeAll env (toSfCount n) mixed wfuel ofile 0).bind fun ofile1 =>
      combinedLoop G env nTracks n wfuel fuel r.1 (calls + 1)
        ((blocksRendered + G.GetBufferUnitCount) % SIZE_T_MOD) ofile1 mixed

/-- The body of the loop over the tracks in separate mode, for track `i`: a file
that did not open is skipped, an open one gets the items of `rbuffers[i]`. -/
def writeTrack {α : Type} (env : SndFileEnv) (n wfuel : Nat) (rbuffers : List (List α))
    (ofiles : List (Option (List α))) (i : Nat) : Outcome (List (Option (List α))) :=
  match ofiles.getD i none with
  | none => .returned ofiles
  | some f =>
    (writeAll env (toSfCount n) (rbuffers.getD i []) wfuel f 0).bind fun f1 =>
    .returned (ofiles.set i (some f1))

/-- The loop `for (size_t i = 0; i < nTracks; i++)` of separate mode, over the
indices still to visit. -/
def writeTracks {α : Type} (env : SndFileEnv) (n wfuel : Nat) (rbuffers : List (List α)) :
    List Nat → List (Option (List α)) → Outcome (List (Option (List α)))
  | [], ofiles => .returned ofiles
  | i :: rest, ofiles =>
    (writeTrack env n wfuel rbuffers ofiles i).bind fun ofiles1 =>
    writeTracks env n wfuel rbuffers rest ofiles1

/-- The `while (true)` loop of separate mode. -/
def separateLoop {σ α : Type} (G : StreamGenerator σ α) (env : SndFileEnv)
    (nTracks n wfuel : Nat) :
    Nat → σ → Nat → Nat → List (Option (List α)) → Outcome (ExportRun α)
  | 0, _, _, _, _ => .outOfFuel
  | fuel + 1, s, calls, blocksRendered, ofiles =>
    let r := G.ProcessAndGetAudio s
    if G.HasStreamEnded r.1 then
      .returned { blocksRendered := blocksRendered, calls := calls + 1, files := ofiles }
    else if r.2.length ≠ nTracks then .assertFailed
    else
      (writeTracks env n wfuel r.2 (List.range nTracks) ofiles).bind fun ofiles1 =>
      separateLoop G env nTracks n wfuel fuel r.1 (calls + 1)
        ((blocksRendered + G.GetBufferUnitCount) % SIZE_T_MOD) ofiles1

/-- The function `SoundExporter::exportSong`, from the point where the sequence
and the stream generator exist: `G` and `s0` are the generator and its state
after construction, `nTracks` is `seq.tracks.size()`.  `fuel` bounds the
iterations of every loop.  `Debug::print` calls and `sf_close` are left out:
they change neither the files nor the result. -/
def exportSong {σ α : Type} [Add α] [Zero α] (G : StreamGenerator σ α) (env : SndFileEnv)
    (benchmarkOnly seperate : Bool) (nTracks fuel : Nat) (s0 : σ) : Outcome (ExportRun α) :=
  let nBlocks := G.GetBufferUnitCount
  let n := (nBlocks * N_CHANNELS) % SIZE_T_MOD
  if !benchmarkOnly then
    if seperate then
      let ofiles := (List.range nTracks).map fun i => if env.opens i then some [] else none
      separateLoop G env nTracks n fuel fuel s0 0 0 ofiles
    else
      if !env.opens 0 then
        .returned { blocksRendered := 0, calls := 0, files := [none] }
      else
        combinedLoop G env nTracks n fuel fuel s0 0 0 [] (List.replicate n 0)
  else
    benchmarkLoop G fuel s0 0 0

/-! ### Streams, as the claims speak of them -/

/-- The generator state after `j` calls of `ProcessAndGetAudio`. -/
def stateAfter {σ α : Type} (G : StreamGenerator σ α) (s0 : σ) : Nat → σ
  | 0 => s0
  | j + 1 => (G.ProcessAndGetAudio (stateAfter G s0 j)).1

/-- The buffers that call number `j + 1` of `ProcessAndGetAudio` returns. -/
def blockOf {σ α : Type} (G : StreamGenerator σ α) (s0 : σ) (j : Nat) : List (List α) :=
  (G.ProcessAndGetAudio (stateAfter G s0 j)).2

/-- The predicate `EndsAt G s0 k`: `HasStreamEnded()` first returns true after the
`k`-th call of `ProcessAndGetAudio`, `k ≥ 1`. -/
def EndsAt {σ α : Type} (G : StreamGenerator σ α) (s0 : σ) (k : Nat) : Prop :=
  0 < k ∧ G.HasStreamEnded (stateAfter G s0 k) = true ∧
    ∀ j, 0 < j → j < k → G.HasStreamEnded (stateAfter G s0 j) = false

/-- A block of the shape the spec promises: one buffer per track, each of
`n` items. -/
def WellShaped {α : Type} (nTracks n : Nat) (rbuffers : List (List α)) : Prop :=
  rbuffers.length = nTracks ∧ ∀ b ∈ rbuffers, b.length = n

/-- The files of separate mode when the file of track `i` holds `content i`: one
entry per track, `none` for a file that did not open. -/
def filesOf {α : Type} (env : SndFileEnv) (nTracks : Nat) (content : Nat → List α) :
    List (Option (List α)) :=
  (List.range nTracks).map fun i => if env.opens i then some (content i) else none

/-- A writer that makes progress: every request for `req > 0` items writes at
least one. -/
def SndFileEnv.Progresses (env : SndFileEnv) : Prop :=
  ∀ len req, 0 < req → 0 < env.accept len req

/-- The master sample of the claim: the left-to-right sum, from zero, of
`rbuffers[t][i]` over the tracks `t` in ascending order. -/
def masterSample {α : Type} [Add α] [Zero α] (rbuffers : List (List α)) (i : Nat) : α :=
  rbuffers.foldl (fun acc b => acc + b.getD i 0) 0

/-- The master block of the claim: the master samples at `0 .. n - 1`. -/
def masterBlock {α : Type} [Add α] [Zero α] (n : Nat) (rbuffers : List (List α)) : List α :=
  (List.range n).map (masterSample rbuffers)

/-- The items track `i` contributes to its file for one block: the first `n`
items of `rbuffers[i]`. -/
def trackBlock {α : Type} (n : Nat) (rbuffers : List (List α)) (i : Nat) : List α :=
  (rbuffers.getD i []).take n

/-! ### The stream generator, from the spec -/

/-- Modelled from the spec: `StreamGenerator` (its source is not among the
sources), section 4.9.  `blockSamples` is `bufferUnitCount`; `nTracks` the
number of tracks of the sequence; `advance` is step 1 (the sequence advances by
one frame, tracks dispatch events, voices are allocated); `voices s t` are the
voices on track `t` in allocation order, each given by the block it yields when
pulled (item index to sample); `reverb s t buf i` is item `i` of the buffer after
the reverb of track `t` has run over `buf` in place; `ended` is `HasStreamEnded`. -/
structure SpecStream (σ α : Type) where
  blockSamples : Nat
  nTracks : Nat
  advance : σ → σ
  voices : σ → Nat → List (Nat → α)
  reverb : σ → Nat → List α → Nat → α
  ended : σ → Bool

/-- Modelled from the spec: step 2 of section 4.9 for one track, "zero its
per-track stereo buffer; for each voice on that track, pull one block and
additively mix into the track buffer; run the track's reverb over the buffer";
the buffer is "an interleaved stereo float buffer of length `2 * blockSamples`". -/
def SpecStream.trackBuffer {σ α : Type} [Add α] [Zero α] (S : SpecStream σ α) (s : σ) (t : Nat) :
    List α :=
  let zeroed : List α := List.replicate (2 * S.blockSamples) 0
  let mixed := (S.voices s t).foldl (fun buf v => (List.range buf.length).map fun i => buf.getD i 0 + v i)
    zeroed
  (List.range mixed.length).map fun i => S.reverb s t mixed i

/-- Modelled from the spec: `ProcessAndGetAudio()` "yields a reference to an owned
collection indexed by track", one `trackBuffer` per track of the sequence. -/
def SpecStream.ProcessAndGetAudio {σ α : Type} [Add α] [Zero α] (S : SpecStream σ α) (s : σ) :
    σ × List (List α) :=
  let s1 := S.advance s
  (s1, (List.range S.nTracks).map (S.trackBuffer s1))

/-- The spec's stream generator behind the interface `exportSong` uses. -/
def SpecStream.toStreamGenerator {σ α : Type} [Add α] [Zero α] (S : SpecStream σ α) :
    StreamGenerator σ α :=
  { ProcessAndGetAudio := S.ProcessAndGetAudio
    HasStreamEnded := S.ended
    GetBufferUnitCount := S.blockSamples }

/-! ## `src/SoundExporter.cpp`: `Export` -/

/-- The class `SongEntry` as `Export` uses it: the member `name` and the value
of `GetUID()` (a `uint16_t`). -/
structure SongEntry where
  name : List Char
  uid : Nat
  deriving DecidableEq, Repr

/-- The answers of the world outside `Export`: the three `std::filesystem`
queries, and the whole seconds between the two clock readings. -/
structure FsEnv where
  pathExists : List Char → Bool
  is_directory : List Char → Bool
  create_directory : List Char → Bool
  elapsedSeconds : Nat

/-- The effects of `Export`, in the order they happen. -/
inductive Effect
  | fsExists (dir : List Char)
  | fsIsDirectory (dir : List Char)
  | fsCreateDirectory (dir : List Char)
  | printRendering (percent : Nat) (fname : List Char)
  | renderSong (fileName : List Char) (uid : Nat)
  | printWrote (files : Nat) (blocksPerSecond : Option Int)
  deriving DecidableEq, Repr

/-- How `Export` ends: it returns, it throws an `Xcept` with a message, or a call
of `exportSong` does not return (with the outcome of that call). -/
inductive ExportEnd
  | finished
  | threw (msg : String)
  | stopped (o : Outcome Unit)
  deriving DecidableEq, Repr

/-- The end of `Export` and the effects up to it. -/
structure ExportResult where
  outcome : ExportEnd
  effects : List Effect
  deriving DecidableEq, Repr

/-- The text `s.c_str()` shows to a `%s` conversion: the characters before the
first NUL. -/
def c_str (s : List Char) : List Char := s.takeWhile fun c => c ≠ Char.ofNat 0

/-- The conversion `%0<width>zu`: the decimal digits of `n`, padded on the left
with zeros to at least `width` characters. -/
def zeroPad (width n : Nat) : List Char :=
  List.replicate (width - (Nat.toDigits 10 n).length) '0' ++ Nat.toDigits 10 n

/-- The call `boost::replace_all(fname, "/", "_")`. -/
def replaceSlashes (fname : List Char) : List Char :=
  fname.map fun c => if c = '/' then '_' else c

/-- The text before truncation of
`snprintf(fileName, sizeof(fileName), "%s/%03zu - %s", outputDir.c_str(), i + 1, fname.c_str())`. -/
def baseName (outputDir : List Char) (number : Nat) (fname : List Char) : List Char :=
  c_str outputDir ++ '/' :: zeroPad 3 number ++ ' ' :: '-' :: ' ' :: c_str fname

/-- The content of `char fileName[512]` after the `snprintf`: at most 511
characters of the text. -/
def fileNameOf (outputDir : List Char) (number : Nat) (fname : List Char) : List Char :=
  (baseName outputDir number fname).take 511

/-- The conversion `int(x)` of a `size_t` to a signed 32 bit integer. -/
def toInt32 (x : Nat) : Int :=
  if x % 2 ^ 32 < 2 ^ 31 then ((x % 2 ^ 32 : Nat) : Int) else ((x % 2 ^ 32 : Nat) : Int) - 2 ^ 32

/-- The first loop of `Export`: `tEnts` gets `entries[i]` for every `i` with
`ticked[i]`, over the indices still to visit. -/
def collectTicked (entries : List SongEntry) (ticked : List Bool) :
    List Nat → List SongEntry → List SongEntry
  | [], tEnts => tEnts
  | i :: rest, tEnts =>
    if !ticked.getD i false then collectTicked entries ticked rest tEnts
    else collectTicked entries ticked rest (tEnts ++ [entries.getD i ⟨[], 0⟩])

/-- The render loop of `Export` over the indices still to visit; `renderOne` answers
the call `exportSong(fileName, uid)`. -/
def renderLoop (renderOne : List Char → Nat → Outcome Nat) (outputDir : List Char)
    (tEnts : List SongEntry) :
    List Nat → Nat → List Effect → ExportEnd × Nat × List Effect
  | [], total, effects => (.finished, total, effects)
  | i :: rest, total, effects =>
    let fname := replaceSlashes (tEnts.getD i ⟨[], 0⟩).name
    let percent := ((i + 1) * 100 % SIZE_T_MOD) / tEnts.length
    let fileName := fileNameOf outputDir (i + 1) fname
    let uid := (tEnts.getD i ⟨[], 0⟩).uid
    let effects1 := effects ++ [.printRendering percent fname, .renderSong fileName uid]
    match renderOne fileName uid with
    | .returned rblocks =>
      renderLoop renderOne outputDir tEnts rest ((total + rblocks) % SIZE_T_MOD) effects1
    | .assertFailed => (.stopped .assertFailed, total, effects1)
    | .outOfBounds => (.stopped .outOfBounds, total, effects1)
    | .outOfFuel => (.stopped .outOfFuel, total, effects1)

/-- The directory check of `Export`: the message of the exception it throws, if
any, and the file system calls made. -/
def checkOutputDir (fs : FsEnv) (outputDir : List Char) : Option String × List Effect :=
  if fs.pathExists outputDir then
    if !fs.is_directory outputDir then
      (some "Output directory exists but isn\x27t a dir",
        [.fsExists outputDir, .fsIsDirectory outputDir])
    else (none, [.fsExists outputDir, .fsIsDirectory outputDir])
  else if !fs.create_directory outputDir then
    (some "Creating output directory failed", [.fsExists outputDir, .fsCreateDirectory outputDir])
  else (none, [.fsExists outputDir, .fsCreateDirectory outputDir])

/-- The function `SoundExporter::Export`.  `renderOne fileName uid` is the outcome
of the call `exportSong(fileName, uid)` with its return value. -/
def Export (fs : FsEnv) (renderOne : List Char → Nat → Outcome Nat) (outputDir : List Char)
    (entries : List SongEntry) (ticked : List Bool) : ExportResult :=
  if entries.length ≠ ticked.length then
    { outcome := .threw "SoundExporter: input vectors do not match", effects := [] }
  else
    let tEnts := collectTicked entries ticked (List.range entries.length) []
    match checkOutputDir fs outputDir with
    | (some msg, effects) => { outcome := .threw msg, effects := effects }
    | (none, effects0) =>
      match renderLoop renderOne outputDir tEnts (List.range tEnts.length) 0 effects0 with
      | (.finished, total, effects) =>
        { outcome := .finished
          effects := effects ++ [.printWrote tEnts.length
            (if fs.elapsedSeconds = 0 then none else some (toInt32 (total / fs.elapsedSeconds)))] }
      | (o, _, effects) => { outcome := o, effects := effects }

/-- The songs rendered, in order: the `(fileName, uid)` of every `exportSong`
call among the effects. -/
def renderedSongs : List Effect → List (List Char × Nat)
  | [] => []
  | .renderSong fileName uid :: rest => (fileName, uid) :: renderedSongs rest
  | _ :: rest => renderedSongs rest

/-- The subsequence of `entries` that `ticked` selects, in the words of the claim. -/
def selectTicked : List SongEntry → List Bool → List SongEntry
  | e :: es, t :: ts => if t then e :: selectTicked es ts else selectTicked es ts
  | _, _ => []

/-- The calls the claim expects for the selected entries, numbered from `first`:
entry number `j` under the truncated base name, with its UID. -/
def expectedCalls (outputDir : List Char) : Nat → List SongEntry → List (List Char × Nat)
  | _, [] => []
  | first, e :: es =>
    (fileNameOf outputDir first (replaceSlashes e.name), e.uid) ::
      expectedCalls outputDir (first + 1) es

/-- The directory check of `Export` passes: the path exists and is a directory,
or it does not exist and is created. -/
def FsEnv.DirReady (fs : FsEnv) (outputDir : List Char) : Prop :=
  (fs.pathExists outputDir = true ∧ fs.is_directory outputDir = true) ∨
  (fs.pathExists outputDir = false ∧ fs.create_directory outputDir = true)

/-! ## Concrete inputs for the examples -/

/-- A stream of two tracks with two samples per channel and block: call `j + 1`
returns the buffers `[j + 1, 2, 3, 4]` and `[10, 20, 30, 40]`, and the stream has
ended after the third call. -/
def demoStream : StreamGenerator Nat Int where
  ProcessAndGetAudio s := (s + 1, [[(s : Int) + 1, 2, 3, 4], [10, 20, 30, 40]])
  HasStreamEnded s := decide (3 ≤ s)
  GetBufferUnitCount := 2

/-- A libsndfile that opens every file and writes at most three items per call. -/
def chunkWriter : SndFileEnv where
  opens _ := true
  accept _ _ := 3

/-- A libsndfile that opens the file of track 0 only (in combined mode: the
output file) and writes whatever is requested. -/
def firstFileOnly : SndFileEnv where
  opens i := decide (i = 0)
  accept _ req := req

/-- A libsndfile that opens every file and whose `sf_write_float` always returns
0 (a write error on every call). -/
def stuckWriter : SndFileEnv where
  opens _ := true
  accept _ _ := 0

/-- A libsndfile whose `sf_open` always fails. -/
def noFileOpens : SndFileEnv where
  opens _ := false
  accept _ req := req

/-- A spec stream with one track and one voice that plays the constant 1, a
reverb that doubles every item, four samples per channel and block, ended
after two calls. -/
def demoSpecStream : SpecStream Nat Int where
  blockSamples := 4
  nTracks := 1
  advance s := s + 1
  voices _ _ := [fun _ => 1]
  reverb _ _ buf i := 2 * buf.getD i 0
  ended s := decide (2 ≤ s)

/-- A file system in which the output directory exists and is a directory. -/
def dirExists : FsEnv where
  pathExists _ := true
  is_directory _ := true
  create_directory _ := false
  elapsedSeconds := 0

/-- A file system in which the output path exists and is a regular file. -/
def pathIsFile : FsEnv where
  pathExists _ := true
  is_directory _ := false
  create_directory _ := false
  elapsedSeconds := 0

/-- Three song entries; the name of the first contains a slash. -/
def demoEntries : List SongEntry :=
  [⟨['a', '/', 'b'], 7⟩, ⟨['c'], 8⟩, ⟨['d'], 9⟩]

/-- A song entry whose name has 600 characters. -/
def longEntry : SongEntry := ⟨List.replicate 600 'x', 1⟩

/-! # Theorems -/

set_option maxRecDepth 100000

/-! ### Constants -/

/-- C7: the constant `NOISE_SAMPLING_FREQ` is exactly 65536, that is `2 ^ 16`, and
the literal `65536.0f` is exactly representable as a binary32 number (sign 0,
biased exponent 143, fraction 0). -/
theorem noise_sampling_freq_exact :
    NOISE_SAMPLING_FREQ = 65536 ∧ NOISE_SAMPLING_FREQ = 2 ^ 16 ∧
      NOISE_SAMPLING_FREQ = binary32Value 0 143 0 := by
  refine ⟨?_, ?_, ?_⟩ <;> norm_num [NOISE_SAMPLING_FREQ, binary32Value]

/-! ### The envelope state machine -/

theorem advanceEnvelope_legal (c : CGBChannel) :
    c.advanceEnvelope.eState = c.eState ∨
      c.advanceEnvelope.eState.toNat = c.eState.toNat + 1 ∨
      (c.eState = .SUS ∧ c.env.sus = 0 ∧ c.advanceEnvelope.eState = .DEAD) := by
  unfold CGBChannel.advanceEnvelope
  cases h : c.eState <;> simp only [] <;> (try split_ifs) <;> simp_all [EnvState.toNat]

theorem stepEnvelope_eState (c : CGBChannel) :
    c.stepEnvelope.eState = if c.envInterStep = 0 then c.advanceEnvelope.eState else c.eState := by
  unfold CGBChannel.stepEnvelope
  split_ifs <;> rfl

theorem stepEnvelope_legal (c : CGBChannel) :
    c.stepEnvelope.eState = c.eState ∨
      c.stepEnvelope.eState.toNat = c.eState.toNat + 1 ∨
      (c.eState = .SUS ∧ c.env.sus = 0 ∧ c.stepEnvelope.eState = .DEAD) := by
  rw [stepEnvelope_eState]
  split_ifs
  · exact advanceEnvelope_legal c
  · exact Or.inl rfl

theorem applyOp_stepLegal (fastRel : Nat) (tickNote : CGBChannel → CGBChannel) (c : CGBChannel)
    (op : EnvOp) :
    EnvOp.StepLegal c.eState op (c.applyOp fastRel tickNote op).eState := by
  cases op with
  | stepEnvelope =>
    rcases stepEnvelope_legal c with h1 | h1 | ⟨h1, _, h3⟩
    · exact Or.inl h1
    · exact Or.inr (Or.inl h1)
    · exact Or.inr (Or.inr ⟨h1, h3⟩)
  | Release fast => exact rfl
  | TickNote => exact trivial

theorem steps_stepLegal (fastRel : Nat) (tickNote : CGBChannel → CGBChannel) (ops : List EnvOp) :
    ∀ (c : CGBChannel), ∀ t ∈ CGBChannel.steps fastRel tickNote c ops,
      EnvOp.StepLegal t.1 t.2.1 t.2.2 := by
  induction ops with
  | nil => intro c t ht; simp [CGBChannel.steps] at ht
  | cons op ops ih =>
    intro c t ht
    unfold CGBChannel.steps at ht
    rcases List.mem_cons.1 ht with h | h
    · subst h
      exact applyOp_stepLegal fastRel tickNote c op
    · exact ih _ t h

theorem stepLegal_backward (a : EnvState) (op : EnvOp) (b : EnvState)
    (h : EnvOp.StepLegal a op b) (hback : b.toNat < a.toNat) :
    op = .TickNote ∨ ((∃ fastRelease, op = .Release fastRelease) ∧ a = .DEAD ∧ b = .REL) := by
  cases op with
  | stepEnvelope =>
    exfalso
    rcases h with h | h | ⟨h1, h2⟩
    · subst h; omega
    · omega
    · subst h1; subst h2; simp [EnvState.toNat] at hback
  | Release fast =>
    have hb : b = .REL := h
    subst hb
    refine Or.inr ⟨⟨fast, rfl⟩, ?_, rfl⟩
    cases a <;> simp [EnvState.toNat] at hback ⊢
  | TickNote => exact Or.inl rfl

theorem lfsrPow2_eq (np : NoisePatt) (k : Nat) (s : Nat) :
    lfsrPow2 np k s = (lfsrStep np)^[2 ^ k] s := by
  induction k generalizing s with
  | zero => simp [lfsrPow2]
  | succ k ih =>
    have h : lfsrPow2 np (k + 1) s = lfsrPow2 np k (lfsrPow2 np k s) := by
      rw [lfsrPow2]
      cases lfsrPow2 np k s <;> rfl
    rw [h, ih, ih, pow_succ, Nat.mul_two, Function.iterate_add_apply]

theorem lfsrStep_zero (np : NoisePatt) : lfsrStep np 0 = 0 := by
  cases np <;> decide

theorem lfsr_iterate_zero (np : NoisePatt) (n : Nat) : (lfsrStep np)^[n] 0 = 0 :=
  Function.iterate_fixed (lfsrStep_zero np) n

theorem lfsrSeed_ne_zero (np : NoisePatt) : lfsrSeed np ≠ 0 := by
  cases np <;> decide

/-- A register that returns to its seed after `p > 0` steps never holds zero. -/
theorem lfsr_never_zero (np : NoisePatt) (p : Nat) (hp : 0 < p)
    (hper : (lfsrStep np)^[p] (lfsrSeed np) = lfsrSeed np) (n : Nat) :
    (lfsrStep np)^[n] (lfsrSeed np) ≠ 0 := by
  intro h0
  have hmul : Function.IsPeriodicPt (lfsrStep np) (p * (n + 1)) (lfsrSeed np) :=
    Function.IsPeriodicPt.mul_const hper (n + 1)
  have hle : n ≤ p * (n + 1) := by nlinarith
  obtain ⟨m, hm⟩ := Nat.exists_eq_add_of_le hle
  have h1 : (lfsrStep np)^[p * (n + 1)] (lfsrSeed np) = 0 := by
    rw [hm, Nat.add_comm, Function.iterate_add_apply, h0, lfsr_iterate_zero]
  exact lfsrSeed_ne_zero np (hmul.symm.trans h1)

theorem fine_iterate_32767 : (lfsrStep .FINE)^[32767] (lfsrSeed .FINE) = lfsrSeed .FINE := by
  have e : 32767 = 2 ^ 14 + (2 ^ 13 + (2 ^ 12 + (2 ^ 11 + (2 ^ 10 + (2 ^ 9 + (2 ^ 8 + (2 ^ 7 +
      (2 ^ 6 + (2 ^ 5 + (2 ^ 4 + (2 ^ 3 + (2 ^ 2 + (2 ^ 1 + 2 ^ 0))))))))))))) := by norm_num
  rw [e]
  simp only [Function.iterate_add_apply, ← lfsrPow2_eq]
  decide

theorem fine_iterate_4681 : (lfsrStep .FINE)^[4681] (lfsrSeed .FINE) ≠ lfsrSeed .FINE := by
  have e : 4681 = 2 ^ 12 + (2 ^ 9 + (2 ^ 6 + (2 ^ 3 + 2 ^ 0))) := by norm_num
  rw [e]
  simp only [Function.iterate_add_apply, ← lfsrPow2_eq]
  decide

theorem fine_iterate_1057 : (lfsrStep .FINE)^[1057] (lfsrSeed .FINE) ≠ lfsrSeed .FINE := by
  have e : 1057 = 2 ^ 10 + (2 ^ 5 + 2 ^ 0) := by norm_num
  rw [e]
  simp only [Function.iterate_add_apply, ← lfsrPow2_eq]
  decide

theorem fine_iterate_217 : (lfsrStep .FINE)^[217] (lfsrSeed .FINE) ≠ lfsrSeed .FINE := by
  have e : 217 = 2 ^ 7 + (2 ^ 6 + (2 ^ 4 + (2 ^ 3 + 2 ^ 0))) := by norm_num
  rw [e]
  simp only [Function.iterate_add_apply, ← lfsrPow2_eq]
  decide

theorem rough_iterate_127 : (lfsrStep .ROUGH)^[127] (lfsrSeed .ROUGH) = lfsrSeed .ROUGH := by
  have e : 127 = 2 ^ 6 + (2 ^ 5 + (2 ^ 4 + (2 ^ 3 + (2 ^ 2 + (2 ^ 1 + 2 ^ 0))))) := by norm_num
  rw [e]
  simp only [Function.iterate_add_apply, ← lfsrPow2_eq]
  decide

theorem fine_minimalPeriod :
    Function.minimalPeriod (lfsrStep .FINE) (lfsrSeed .FINE) = 32767 := by
  set d := Function.minimalPeriod (lfsrStep .FINE) (lfsrSeed .FINE) with hd
  have hper : Function.IsPeriodicPt (lfsrStep .FINE) d (lfsrSeed .FINE) :=
    Function.isPeriodicPt_minimalPeriod _ _
  have hdvd : d ∣ 32767 := Function.IsPeriodicPt.minimalPeriod_dvd fine_iterate_32767
  have h7 : 7 ∣ d := by
    by_contra hn
    have hc : Nat.Coprime d 7 :=
      ((Nat.Prime.coprime_iff_not_dvd (by norm_num)).2 hn).symm
    have : d ∣ 4681 := hc.dvd_of_dvd_mul_right (by simpa using hdvd)
    exact fine_iterate_4681 (hper.trans_dvd this)
  have h31 : 31 ∣ d := by
    by_contra hn
    have hc : Nat.Coprime d 31 :=
      ((Nat.Prime.coprime_iff_not_dvd (by norm_num)).2 hn).symm
    have : d ∣ 1057 := hc.dvd_of_dvd_mul_right (by simpa using hdvd)
    exact fine_iterate_1057 (hper.trans_dvd this)
  have h151 : 151 ∣ d := by
    by_contra hn
    have hc : Nat.Coprime d 151 :=
      ((Nat.Prime.coprime_iff_not_dvd (by norm_num)).2 hn).symm
    have : d ∣ 217 := hc.dvd_of_dvd_mul_right (by simpa using hdvd)
    exact fine_iterate_217 (hper.trans_dvd this)
  have h217 : 7 * 31 ∣ d := Nat.Coprime.mul_dvd_of_dvd_of_dvd (by norm_num) h7 h31
  have hall : 7 * 31 * 151 ∣ d := Nat.Coprime.mul_dvd_of_dvd_of_dvd (by norm_num) h217 h151
  exact Nat.dvd_antisymm hdvd (by simpa using hall)

theorem rough_minimalPeriod :
    Function.minimalPeriod (lfsrStep .ROUGH) (lfsrSeed .ROUGH) = 127 := by
  have hdvd : Function.minimalPeriod (lfsrStep .ROUGH) (lfsrSeed .ROUGH) ∣ 127 :=
    Function.IsPeriodicPt.minimalPeriod_dvd rough_iterate_127
  rcases (Nat.Prime.eq_one_or_self_of_dvd (by norm_num) _ hdvd) with h1 | h1
  · exfalso
    have hper : Function.IsPeriodicPt (lfsrStep .ROUGH) 1 (lfsrSeed .ROUGH) := by
      rw [← h1]
      exact Function.isPeriodicPt_minimalPeriod _ _
    have hne : (lfsrStep .ROUGH)^[1] (lfsrSeed .ROUGH) ≠ lfsrSeed .ROUGH := by decide
    exact hne hper
  · exact h1

/-- C5: seeded with all ones, the 15 bit register (FINE) returns to the seed after
exactly 32767 steps and the 7 bit register (ROUGH) after exactly 127 steps: it
is back at the seed after that many steps, after no smaller positive number of
steps, and it never holds zero. -/
theorem lfsr_period_exact :
    (lfsrSeed .FINE = 2 ^ 15 - 1 ∧
      (lfsrStep .FINE)^[32767] (lfsrSeed .FINE) = lfsrSeed .FINE ∧
      (∀ n, 0 < n → n < 32767 → (lfsrStep .FINE)^[n] (lfsrSeed .FINE) ≠ lfsrSeed .FINE) ∧
      (∀ n, (lfsrStep .FINE)^[n] (lfsrSeed .FINE) ≠ 0)) ∧
    (lfsrSeed .ROUGH = 2 ^ 7 - 1 ∧
      (lfsrStep .ROUGH)^[127] (lfsrSeed .ROUGH) = lfsrSeed .ROUGH ∧
      (∀ n, 0 < n → n < 127 → (lfsrStep .ROUGH)^[n] (lfsrSeed .ROUGH) ≠ lfsrSeed .ROUGH) ∧
      (∀ n, (lfsrStep .ROUGH)^[n] (lfsrSeed .ROUGH) ≠ 0)) := by
  refine ⟨⟨rfl, fine_iterate_32767, ?_, lfsr_never_zero _ 32767 (by norm_num) fine_iterate_32767⟩,
    ⟨rfl, rough_iterate_127, ?_, lfsr_never_zero _ 127 (by norm_num) rough_iterate_127⟩⟩
  · intro n hpos hlt
    have := Function.not_isPeriodicPt_of_pos_of_lt_minimalPeriod (f := lfsrStep .FINE)
      (x := lfsrSeed .FINE) (Nat.pos_iff_ne_zero.1 hpos) (by rw [fine_minimalPeriod]; exact hlt)
    exact this
  · intro n hpos hlt
    have := Function.not_isPeriodicPt_of_pos_of_lt_minimalPeriod (f := lfsrStep .ROUGH)
      (x := lfsrSeed .ROUGH) (Nat.pos_iff_ne_zero.1 hpos) (by rw [rough_minimalPeriod]; exact hlt)
    exact this

/-! ### `exportSong`: the write loop -/

theorem toSfCount_of_lt (n : Nat) (h : n < 2 ^ 63) : toSfCount n = (n : Int) := by
  have h1 : n % SIZE_T_MOD = n := Nat.mod_eq_of_lt (by unfold SIZE_T_MOD; omega)
  unfold toSfCount
  rw [h1, if_pos h]

theorem take_drop_append {α : Type} (buf : List α) (p w m : Nat) (hw : w ≤ m) :
    (buf.drop p).take w ++ (buf.drop (p + w)).take (m - w) = (buf.drop p).take m := by
  have e : m = w + (m - w) := by omega
  conv_rhs => rw [e, List.take_add, List.drop_drop]

/-- With a writer that makes progress, the write loop appends the items
`buf[p .. n)` to the file, whatever the sizes of the single writes. -/
theorem writeAll_progress {α : Type} (env : SndFileEnv) (hpr : env.Progresses) (n : Nat)
    (buf : List α) (hbuf : n ≤ buf.length) :
    ∀ (fuel : Nat) (file : List α) (p : Nat), p ≤ n → n - p < fuel →
      writeAll env (n : Int) buf fuel file (p : Int) =
        .returned (file ++ (buf.drop p).take (n - p)) := by
  intro fuel
  induction fuel with
  | zero => intro file p _ h; omega
  | succ fuel ih =>
    intro file p hp hfuel
    unfold writeAll
    rcases Nat.eq_or_lt_of_le hp with heq | hlt
    · subst heq
      simp [sf_write_float]
    · have hitems : ((n : Int) - (p : Int)).toNat = n - p := by omega
      have hpos : ¬ ((n : Int) - (p : Int) ≤ 0) := by omega
      have hw := hpr file.length (n - p) (by omega)
      simp only [sf_write_float, hpos, if_false, Int.toNat_ofNat, hitems]
      rw [if_pos (by omega)]
      simp only []
      set w := min (env.accept file.length (n - p)) (n - p) with hwdef
      have hw1 : 0 < w := by rw [hwdef]; exact lt_min hw (by omega)
      have hw2 : w ≤ n - p := min_le_right _ _
      by_cases hlt2 : (p : Int) + (w : Int) < (n : Int)
      · rw [if_pos hlt2]
        have e : (p : Int) + (w : Int) = ((p + w : Nat) : Int) := by push_cast; rfl
        rw [e, ih _ (p + w) (by omega) (by omega), List.append_assoc]
        congr 1
        have := take_drop_append buf p w (n - p) hw2
        rw [← this, Nat.sub_add_eq]
      · rw [if_neg hlt2]
        have : w = n - p := by omega
        rw [this]

/-- Whatever the writer does, the write loop stays inside a buffer of at least
`n` items and fails no assertion. -/
theorem writeAll_safe {α : Type} (env : SndFileEnv) (n : Nat) (buf : List α)
    (hbuf : n ≤ buf.length) :
    ∀ (fuel : Nat) (file : List α) (p : Nat), p ≤ n →
      ¬ (writeAll env (n : Int) buf fuel file (p : Int)).IsFault := by
  intro fuel
  induction fuel with
  | zero => intro file p _; simp [writeAll, Outcome.IsFault]
  | succ fuel ih =>
    intro file p hp
    unfold writeAll
    by_cases hpos : (n : Int) - (p : Int) ≤ 0
    · have : ¬ ((p : Int) + ((0 : Nat) : Int) < (n : Int)) := by omega
      have hnp : ¬ p < n := by omega
      simp [sf_write_float, hpos, Outcome.IsFault, hnp]
    · have hitems : ((n : Int) - (p : Int)).toNat = n - p := by omega
      simp only [sf_write_float, hpos, if_false, Int.toNat_ofNat, hitems]
      rw [if_pos (by omega)]
      simp only []
      set w := min (env.accept file.length (n - p)) (n - p) with hwdef
      have hw2 : w ≤ n - p := min_le_right _ _
      by_cases hlt2 : (p : Int) + (w : Int) < (n : Int)
      · rw [if_pos hlt2]
        have e : (p : Int) + (w : Int) = ((p + w : Nat) : Int) := by push_cast; rfl
        rw [e]
        exact ih _ (p + w) (by omega)
      · rw [if_neg hlt2]
        simp [Outcome.IsFault]

/-! ### `exportSong`: mixing the tracks -/

theorem addTrack_fold_getElem? {α : Type} [Add α] [Zero α] (b : List α) :
    ∀ (k : Nat) (rd : List α) (i : Nat), k ≤ rd.length →
      ((List.range k).foldl (fun rd i => rd.set i (rd.getD i 0 + b.getD i 0)) rd)[i]? =
        if i < k then some (rd.getD i 0 + b.getD i 0) else rd[i]? := by
  intro k
  induction k with
  | zero => intro rd i _; simp
  | succ k ih =>
    intro rd i hk
    rw [List.range_succ, List.foldl_append]
    simp only [List.foldl_cons, List.foldl_nil]
    have hlen : ((List.range k).foldl (fun rd i => rd.set i (rd.getD i 0 + b.getD i 0)) rd).length
        = rd.length := by
      generalize List.range k = l
      induction l generalizing rd with
      | nil => rfl
      | cons a l ihl => simp only [List.foldl_cons]; rw [ihl]; simp; simpa using hk
    rw [List.getElem?_set]
    by_cases hik : k = i
    · subst hik
      have hk1 : k < rd.length := hk
      simp only [if_true, hlen, hk1, Nat.lt_succ_self]
      congr 2
      rw [List.getD_eq_getElem?_getD, ih rd k (by omega)]
      simp [List.getD_eq_getElem?_getD]
    · rw [if_neg hik, ih rd i (by omega)]
      by_cases hlt : i < k
      · rw [if_pos hlt, if_pos (by omega)]
      · rw [if_neg hlt, if_neg (by omega)]

theorem addTrack_length {α : Type} [Add α] [Zero α] (rd b : List α) :
    (addTrack rd b).length = rd.length := by
  unfold addTrack
  generalize List.range b.length = l
  induction l generalizing rd with
  | nil => rfl
  | cons a l ih => simp only [List.foldl_cons]; rw [ih]; simp

theorem addTrack_getD {α : Type} [Add α] [Zero α] (rd b : List α) (h : b.length = rd.length)
    (i : Nat) (hi : i < rd.length) :
    (addTrack rd b).getD i 0 = rd.getD i 0 + b.getD i 0 := by
  unfold addTrack
  rw [List.getD_eq_getElem?_getD, addTrack_fold_getElem? b b.length rd i (by omega),
    if_pos (by omega)]
  rfl

/-- The mixing loop, started from a buffer `rd`, leaves at every index the
left-to-right sum of the tracks at that index, starting from `rd[i]`. -/
theorem mixTracks_eq {α : Type} [Add α] [Zero α] (n : Nat) :
    ∀ (rbuffers : List (List α)) (rd : List α), rd.length = n →
      (∀ b ∈ rbuffers, b.length = n) →
      mixTracks rd rbuffers =
        .returned ((List.range n).map fun i =>
          rbuffers.foldl (fun acc b => acc + b.getD i 0) (rd.getD i 0)) := by
  intro rbuffers
  induction rbuffers with
  | nil =>
    intro rd hrd _
    simp only [mixTracks, List.foldl_nil]
    congr 1
    apply List.ext_getElem
    · simp [hrd]
    · intro i h1 h2
      simp [List.getD_eq_getElem?_getD, h1]
  | cons b rest ih =>
    intro rd hrd hall
    have hb : b.length = n := hall b (List.mem_cons_self _ _)
    unfold mixTracks
    rw [if_pos (by omega), ih (addTrack rd b) (by rw [addTrack_length, hrd])
      (fun c hc => hall c (List.mem_cons_of_mem _ hc))]
    congr 1
    apply List.map_congr_left
    intro i hi
    rw [List.mem_range] at hi
    rw [List.foldl_cons, addTrack_getD rd b (by omega) i (by omega)]

theorem mixTracks_zero {α : Type} [Add α] [Zero α] (n m : Nat) (rbuffers : List (List α))
    (hall : ∀ b ∈ rbuffers, b.length = n) (hm : m = n) :
    mixTracks (List.replicate m (0 : α)) rbuffers = .returned (masterBlock n rbuffers) := by
  subst hm
  rw [mixTracks_eq m rbuffers _ (by simp) hall]
  congr 1
  apply List.map_congr_left
  intro i hi
  rw [List.mem_range] at hi
  unfold masterSample
  congr 1
  simp [List.getD_eq_getElem?_getD, hi]

theorem masterBlock_length {α : Type} [Add α] [Zero α] (n : Nat) (rbuffers : List (List α)) :
    (masterBlock n rbuffers).length = n := by
  simp [masterBlock]

/-! ### `exportSong`: the block loops -/

theorem stateAfter_shift {σ α : Type} (G : StreamGenerator σ α) (s : σ) (j : Nat) :
    stateAfter G s (j + 1) = stateAfter G (G.ProcessAndGetAudio s).1 j := by
  induction j with
  | zero => rfl
  | succ j ih =>
    show (G.ProcessAndGetAudio (stateAfter G s (j + 1))).1 = _
    rw [ih]
    rfl

theorem blockOf_shift {σ α : Type} (G : StreamGenerator σ α) (s : σ) (j : Nat) :
    blockOf G s (j + 1) = blockOf G (G.ProcessAndGetAudio s).1 j := by
  unfold blockOf
  rw [stateAfter_shift]

theorem EndsAt.one_iff {σ α : Type} (G : StreamGenerator σ α) (s : σ) (k : Nat)
    (h : EndsAt G s k) :
    (G.HasStreamEnded (G.ProcessAndGetAudio s).1 = true ↔ k = 1) := by
  obtain ⟨hk, hend, hbefore⟩ := h
  constructor
  · intro h1
    by_contra hne
    have := hbefore 1 (by omega) (by omega)
    rw [show stateAfter G s 1 = (G.ProcessAndGetAudio s).1 from rfl, h1] at this
    exact Bool.noConfusion this
  · intro h1
    subst h1
    exact hend

theorem EndsAt.shift {σ α : Type} (G : StreamGenerator σ α) (s : σ) (k : Nat)
    (h : EndsAt G s (k + 2)) : EndsAt G (G.ProcessAndGetAudio s).1 (k + 1) := by
  obtain ⟨_, hend, hbefore⟩ := h
  refine ⟨by omega, ?_, ?_⟩
  · rw [← stateAfter_shift]; exact hend
  · intro j hj hjk
    rw [← stateAfter_shift]
    exact hbefore (j + 1) (by omega) (by omega)

theorem bind_range_shift {β : Type} (m : Nat) (f : Nat → List β) :
    (List.range (m + 1)).flatMap f = f 0 ++ (List.range m).flatMap fun j => f (j + 1) := by
  rw [List.range_succ_eq_map]
  simp [List.flatMap, List.map_map, Function.comp_def]

theorem mod_add_mod_size (a b c : Nat) :
    ((a + b) % SIZE_T_MOD + c * b) % SIZE_T_MOD = (a + (c + 1) * b) % SIZE_T_MOD := by
  rw [Nat.add_mod, Nat.mod_mod, ← Nat.add_mod]
  congr 1
  ring

/-- Benchmark mode: a stream that ends on call `k` is left after `k` calls, with
`k` blocks counted. -/
theorem benchmarkLoop_run {σ α : Type} (G : StreamGenerator σ α) :
    ∀ (k fuel : Nat) (s : σ) (calls br : Nat), EndsAt G s k → k ≤ fuel → br < SIZE_T_MOD →
      benchmarkLoop G fuel s calls br =
        .returned { blocksRendered := (br + k * G.GetBufferUnitCount) % SIZE_T_MOD,
                    calls := calls + k, files := [] } := by
  intro k
  induction k with
  | zero => intro fuel s calls br h; exact absurd h.1 (by omega)
  | succ k ih =>
    intro fuel s calls br h hfuel hbr
    obtain ⟨fuel, rfl⟩ : ∃ f, fuel = f + 1 := ⟨fuel - 1, by omega⟩
    unfold benchmarkLoop
    simp only []
    by_cases h1 : G.HasStreamEnded (G.ProcessAndGetAudio s).1 = true
    · have hk : k + 1 = 1 := (EndsAt.one_iff G s _ h).1 h1
      have hk0 : k = 0 := by omega
      subst hk0
      rw [if_pos h1]
      simp
    · have hk : k ≠ 0 := fun hk0 => h1 ((EndsAt.one_iff G s _ h).2 (by omega))
      obtain ⟨k, rfl⟩ : ∃ j, k = j + 1 := ⟨k - 1, by omega⟩
      rw [if_neg h1, ih fuel _ _ _ (EndsAt.shift G s k h) (by omega)
        (Nat.mod_lt _ (by unfold SIZE_T_MOD; norm_num))]
      rw [mod_add_mod_size]
      congr 2
      omega

/-- Combined mode with the file open: a stream that ends on call `k` is left after
`k` calls; the blocks of calls `1 .. k - 1` are mixed and written in call order,
the mixing buffer is zeroed before each, and `k - 1` blocks are counted. -/
theorem combinedLoop_run {σ α : Type} [Add α] [Zero α] (G : StreamGenerator σ α)
    (env : SndFileEnv) (hpr : env.Progresses) (nTracks n wfuel : Nat) (hn : n < 2 ^ 63)
    (hwfuel : n < wfuel) :
    ∀ (k fuel : Nat) (s : σ) (calls br : Nat) (ofile rd : List α), EndsAt G s k →
      (∀ j, j + 1 < k → WellShaped nTracks n (blockOf G s j)) → rd.length = n → k ≤ fuel →
      br < SIZE_T_MOD →
      combinedLoop G env nTracks n wfuel fuel s calls br ofile rd =
        .returned { blocksRendered := (br + (k - 1) * G.GetBufferUnitCount) % SIZE_T_MOD,
                    calls := calls + k,
                    files := [some (ofile ++ (List.range (k - 1)).flatMap fun j =>
                      masterBlock n (blockOf G s j))] } := by
  intro k
  induction k with
  | zero => intro fuel s calls br ofile rd h; exact absurd h.1 (by omega)
  | succ k ih =>
    intro fuel s calls br ofile rd h hshape hrd hfuel hbr
    obtain ⟨fuel, rfl⟩ : ∃ f, fuel = f + 1 := ⟨fuel - 1, by omega⟩
    unfold combinedLoop
    simp only []
    by_cases h1 : G.HasStreamEnded (G.ProcessAndGetAudio s).1 = true
    · have hk : k + 1 = 1 := (EndsAt.one_iff G s _ h).1 h1
      have hk0 : k = 0 := by omega
      subst hk0
      rw [if_pos h1]
      simp [Nat.mod_eq_of_lt hbr]
    · have hk : k ≠ 0 := fun hk0 => h1 ((EndsAt.one_iff G s _ h).2 (by omega))
      obtain ⟨k, rfl⟩ : ∃ j, k = j + 1 := ⟨k - 1, by omega⟩
      have hs0 : WellShaped nTracks n (G.ProcessAndGetAudio s).2 := hshape 0 (by omega)
      rw [if_neg h1, if_neg (by simpa using hs0.1)]
      rw [mixTracks_zero n rd.length _ hs0.2 hrd]
      simp only [Outcome.bind]
      rw [toSfCount_of_lt n hn]
      have hw := writeAll_progress env hpr n (masterBlock n (G.ProcessAndGetAudio s).2)
        (by rw [masterBlock_length]) wfuel ofile 0 (by omega) (by omega)
      simp only [Nat.cast_zero] at hw
      rw [hw]
      simp only [Outcome.bind]
      rw [ih fuel _ _ _ _ _ (EndsAt.shift G s k h)
        (fun j hj => by rw [← blockOf_shift]; exact hshape (j + 1) (by omega))
        (masterBlock_length _ _) (by omega) (Nat.mod_lt _ (by unfold SIZE_T_MOD; norm_num))]
      have e1 : k + 1 + 1 - 1 = k + 1 := by omega
      have e2 : k + 1 - 1 = k := by omega
      rw [e1, e2, mod_add_mod_size, bind_range_shift]
      simp only [List.drop_zero, Nat.sub_zero, List.append_assoc, ← blockOf_shift]
      have e3 : List.take n (masterBlock n (G.ProcessAndGetAudio s).2)
          = masterBlock n (blockOf G s 0) := by
        rw [List.take_of_length_le (by rw [masterBlock_length])]
        rfl
      rw [e3]
      congr 2
      omega

/-! ### `exportSong`: separate mode -/

theorem filesOf_getD {α : Type} (env : SndFileEnv) (nTracks : Nat) (content : Nat → List α)
    (i : Nat) (hi : i < nTracks) :
    (filesOf env nTracks content).getD i none =
      if env.opens i then some (content i) else none := by
  simp [filesOf, List.getD_eq_getElem?_getD, hi]

theorem filesOf_congr {α : Type} (env : SndFileEnv) (nTracks : Nat) (c1 c2 : Nat → List α)
    (h : ∀ i, i < nTracks → env.opens i = true → c1 i = c2 i) :
    filesOf env nTracks c1 = filesOf env nTracks c2 := by
  unfold filesOf
  apply List.map_congr_left
  intro i hi
  rw [List.mem_range] at hi
  by_cases ho : env.opens i = true
  · rw [if_pos ho, if_pos ho, h i hi ho]
  · rw [if_neg ho, if_neg ho]

theorem filesOf_getElem? {α : Type} (env : SndFileEnv) (nTracks : Nat) (content : Nat → List α)
    (j : Nat) :
    (filesOf env nTracks content)[j]? =
      if j < nTracks then some (if env.opens j then some (content j) else none) else none := by
  unfold filesOf
  rw [List.getElem?_map]
  by_cases hj : j < nTracks
  · rw [List.getElem?_range hj, if_pos hj]
    rfl
  · rw [List.getElem?_eq_none (by simpa using hj), if_neg hj]
    rfl

theorem filesOf_length {α : Type} (env : SndFileEnv) (nTracks : Nat) (content : Nat → List α) :
    (filesOf env nTracks content).length = nTracks := by
  simp [filesOf]

theorem filesOf_set {α : Type} (env : SndFileEnv) (nTracks : Nat) (content : Nat → List α)
    (i : Nat) (ho : env.opens i = true) (x : List α) :
    (filesOf env nTracks content).set i (some x) =
      filesOf env nTracks (Function.update content i x) := by
  apply List.ext_getElem?
  intro j
  rw [List.getElem?_set, filesOf_getElem?, filesOf_getElem?, filesOf_length]
  by_cases hij : i = j
  · subst hij
    by_cases hi : i < nTracks
    · simp [hi, ho]
    · simp [hi]
  · rw [if_neg hij, Function.update_noteq (Ne.symm hij)]

theorem writeTrack_filesOf {α : Type} (env : SndFileEnv) (hpr : env.Progresses)
    (nTracks n wfuel : Nat) (hn : n < 2 ^ 63) (hwfuel : n < wfuel) (rbuffers : List (List α))
    (content : Nat → List α) (i : Nat) (hi : i < nTracks)
    (hbuf : n ≤ (rbuffers.getD i []).length) :
    writeTrack env n wfuel rbuffers (filesOf env nTracks content) i =
      .returned (filesOf env nTracks
        (Function.update content i (content i ++ trackBlock n rbuffers i))) := by
  unfold writeTrack
  rw [filesOf_getD env nTracks content i hi]
  by_cases ho : env.opens i = true
  · rw [if_pos ho]
    simp only []
    rw [toSfCount_of_lt n hn]
    have hw := writeAll_progress env hpr n (rbuffers.getD i []) hbuf wfuel (content i) 0
      (by omega) (by omega)
    simp only [Nat.cast_zero] at hw
    rw [hw]
    simp only [Outcome.bind, List.drop_zero, Nat.sub_zero]
    rw [filesOf_set env nTracks content i ho]
    rfl
  · rw [if_neg ho]
    simp only []
    congr 1
    apply filesOf_congr
    intro j _ hoj
    have : j ≠ i := fun hji => ho (hji ▸ hoj)
    rw [Function.update_noteq this]

theorem writeTracks_filesOf {α : Type} (env : SndFileEnv) (hpr : env.Progresses)
    (nTracks n wfuel : Nat) (hn : n < 2 ^ 63) (hwfuel : n < wfuel) (rbuffers : List (List α)) :
    ∀ (idxs : List Nat) (content : Nat → List α), idxs.Nodup →
      (∀ i ∈ idxs, i < nTracks ∧ n ≤ (rbuffers.getD i []).length) →
      writeTracks env n wfuel rbuffers idxs (filesOf env nTracks content) =
        .returned (filesOf env nTracks fun i =>
          if i ∈ idxs then content i ++ trackBlock n rbuffers i else content i) := by
  intro idxs
  induction idxs with
  | nil => intro content _ _; simp [writeTracks]
  | cons i rest ih =>
    intro content hnd hall
    obtain ⟨hi, hbuf⟩ := hall i (List.mem_cons_self _ _)
    unfold writeTracks
    rw [writeTrack_filesOf env hpr nTracks n wfuel hn hwfuel rbuffers content i hi hbuf]
    simp only [Outcome.bind]
    rw [ih _ (List.nodup_cons.1 hnd).2 (fun j hj => hall j (List.mem_cons_of_mem _ hj))]
    congr 2
    funext j
    by_cases hji : j = i
    · subst hji
      simp [(List.nodup_cons.1 hnd).1]
    · simp [hji, Function.update_noteq hji]

/-- In separate mode, one block adds to every open file the first `n` items of
the buffer of its track. -/
theorem writeTracks_block {α : Type} (env : SndFileEnv) (hpr : env.Progresses)
    (nTracks n wfuel : Nat) (hn : n < 2 ^ 63) (hwfuel : n < wfuel) (rbuffers : List (List α))
    (hshape : WellShaped nTracks n rbuffers) (content : Nat → List α) :
    writeTracks env n wfuel rbuffers (List.range nTracks) (filesOf env nTracks content) =
      .returned (filesOf env nTracks fun i => content i ++ trackBlock n rbuffers i) := by
  rw [writeTracks_filesOf env hpr nTracks n wfuel hn hwfuel rbuffers _ content
    (List.nodup_range _)]
  · congr 1
    apply filesOf_congr
    intro i hi _
    rw [if_pos (List.mem_range.2 hi)]
  · intro i hi
    rw [List.mem_range] at hi
    refine ⟨hi, ?_⟩
    have hlt : i < rbuffers.length := by rw [hshape.1]; exact hi
    rw [List.getD_eq_getElem?_getD, List.getElem?_eq_getElem hlt]
    exact le_of_eq (hshape.2 _ (List.getElem_mem hlt)).symm

/-- Separate mode: a stream that ends on call `k` is left after `k` calls; every
open file gets the buffers of its track from the calls `1 .. k - 1`, in call
order, and `k - 1` blocks are counted. -/
theorem separateLoop_run {σ α : Type} (G : StreamGenerator σ α)
    (env : SndFileEnv) (hpr : env.Progresses) (nTracks n wfuel : Nat) (hn : n < 2 ^ 63)
    (hwfuel : n < wfuel) :
    ∀ (k fuel : Nat) (s : σ) (calls br : Nat) (content : Nat → List α), EndsAt G s k →
      (∀ j, j + 1 < k → WellShaped nTracks n (blockOf G s j)) → k ≤ fuel →
      br < SIZE_T_MOD →
      separateLoop G env nTracks n wfuel fuel s calls br (filesOf env nTracks content) =
        .returned { blocksRendered := (br + (k - 1) * G.GetBufferUnitCount) % SIZE_T_MOD,
                    calls := calls + k,
                    files := filesOf env nTracks fun i =>
                      content i ++ (List.range (k - 1)).flatMap fun j =>
                        trackBlock n (blockOf G s j) i } := by
  intro k
  induction k with
  | zero => intro fuel s calls br content h; exact absurd h.1 (by omega)
  | succ k ih =>
    intro fuel s calls br content h hshape hfuel hbr
    obtain ⟨fuel, rfl⟩ : ∃ f, fuel = f + 1 := ⟨fuel - 1, by omega⟩
    unfold separateLoop
    simp only []
    by_cases h1 : G.HasStreamEnded (G.ProcessAndGetAudio s).1 = true
    · have hk : k + 1 = 1 := (EndsAt.one_iff G s _ h).1 h1
      have hk0 : k = 0 := by omega
      subst hk0
      rw [if_pos h1]
      simp [Nat.mod_eq_of_lt hbr]
    · have hk : k ≠ 0 := fun hk0 => h1 ((EndsAt.one_iff G s _ h).2 (by omega))
      obtain ⟨k, rfl⟩ : ∃ j, k = j + 1 := ⟨k - 1, by omega⟩
      have hs0 : WellShaped nTracks n (G.ProcessAndGetAudio s).2 := hshape 0 (by omega)
      rw [if_neg h1, if_neg (by simpa using hs0.1)]
      rw [writeTracks_block env hpr nTracks n wfuel hn hwfuel _ hs0 content]
      simp only [Outcome.bind]
      rw [ih fuel _ _ _ _ (EndsAt.shift G s k h)
        (fun j hj => by rw [← blockOf_shift]; exact hshape (j + 1) (by omega))
        (by omega) (Nat.mod_lt _ (by unfold SIZE_T_MOD; norm_num))]
      have e1 : k + 1 + 1 - 1 = k + 1 := by omega
      have e2 : k + 1 - 1 = k := by omega
      rw [e1, e2, mod_add_mod_size]
      have hfiles : (filesOf env nTracks fun i =>
            (content i ++ trackBlock n (G.ProcessAndGetAudio s).2 i) ++
              (List.range k).flatMap fun j =>
                trackBlock n (blockOf G (G.ProcessAndGetAudio s).1 j) i) =
          filesOf env nTracks fun i =>
            content i ++ (List.range (k + 1)).flatMap fun j => trackBlock n (blockOf G s j) i := by
        apply filesOf_congr
        intro i _ _
        rw [bind_range_shift, List.append_assoc]
        simp only [← blockOf_shift]
        rfl
      rw [hfiles, Nat.add_assoc calls 1 (k + 1), Nat.add_comm 1 (k + 1)]

/-! ### `exportSong`: no failed assertion, no read out of bounds -/

theorem Outcome.bind_not_fault {ρ τ : Type} (o : Outcome ρ) (f : ρ → Outcome τ)
    (ho : ¬ o.IsFault) (hf : ∀ r, o = .returned r → ¬ (f r).IsFault) : ¬ (o.bind f).IsFault := by
  cases o with
  | returned r => exact hf r rfl
  | assertFailed => exact absurd trivial ho
  | outOfBounds => exact absurd trivial ho
  | outOfFuel => simp [Outcome.bind, Outcome.IsFault]

theorem benchmarkLoop_safe {σ α : Type} (G : StreamGenerator σ α) :
    ∀ (fuel : Nat) (s : σ) (calls br : Nat), ¬ (benchmarkLoop G fuel s calls br).IsFault := by
  intro fuel
  induction fuel with
  | zero => intro s calls br; simp [benchmarkLoop, Outcome.IsFault]
  | succ fuel ih =>
    intro s calls br
    unfold benchmarkLoop
    simp only []
    split_ifs
    · simp [Outcome.IsFault]
    · exact ih _ _ _

theorem combinedLoop_safe {σ α : Type} [Add α] [Zero α] (G : StreamGenerator σ α)
    (env : SndFileEnv) (nTracks n wfuel : Nat) (hn : n < 2 ^ 63)
    (hshape : ∀ s, WellShaped nTracks n (G.ProcessAndGetAudio s).2) :
    ∀ (fuel : Nat) (s : σ) (calls br : Nat) (ofile rd : List α), rd.length = n →
      ¬ (combinedLoop G env nTracks n wfuel fuel s calls br ofile rd).IsFault := by
  intro fuel
  induction fuel with
  | zero => intro s calls br ofile rd _; simp [combinedLoop, Outcome.IsFault]
  | succ fuel ih =>
    intro s calls br ofile rd hrd
    unfold combinedLoop
    simp only []
    by_cases h1 : G.HasStreamEnded (G.ProcessAndGetAudio s).1 = true
    · rw [if_pos h1]; simp [Outcome.IsFault]
    · rw [if_neg h1, if_neg (by simpa using (hshape s).1)]
      rw [mixTracks_zero n rd.length _ (hshape s).2 hrd]
      simp only [Outcome.bind]
      rw [toSfCount_of_lt n hn]
      apply Outcome.bind_not_fault
      · have := writeAll_safe env n (masterBlock n (G.ProcessAndGetAudio s).2)
          (by rw [masterBlock_length]) wfuel ofile 0 (by omega)
        simpa using this
      · intro f1 _
        exact ih _ _ _ _ _ (masterBlock_length _ _)

theorem writeTracks_safe {α : Type} (env : SndFileEnv) (nTracks n wfuel : Nat) (hn : n < 2 ^ 63)
    (rbuffers : List (List α)) (hshape : WellShaped nTracks n rbuffers) :
    ∀ (idxs : List Nat) (ofiles : List (Option (List α))), (∀ i ∈ idxs, i < nTracks) →
      ¬ (writeTracks env n wfuel rbuffers idxs ofiles).IsFault := by
  intro idxs
  induction idxs with
  | nil => intro ofiles _; simp [writeTracks, Outcome.IsFault]
  | cons i rest ih =>
    intro ofiles hall
    unfold writeTracks
    apply Outcome.bind_not_fault
    · unfold writeTrack
      cases ofiles.getD i none with
      | none => simp [Outcome.IsFault]
      | some f =>
        simp only []
        apply Outcome.bind_not_fault
        · rw [toSfCount_of_lt n hn]
          have hi : i < rbuffers.length := by
            rw [hshape.1]; exact hall i (List.mem_cons_self _ _)
          have hbuf : n ≤ (rbuffers.getD i []).length := by
            rw [List.getD_eq_getElem?_getD, List.getElem?_eq_getElem hi]
            exact le_of_eq (hshape.2 _ (List.getElem_mem hi)).symm
          have := writeAll_safe env n (rbuffers.getD i []) hbuf wfuel f 0 (by omega)
          simpa using this
        · intro f1 _; simp [Outcome.IsFault]
    · intro ofiles1 _
      exact ih ofiles1 (fun j hj => hall j (List.mem_cons_of_mem _ hj))

theorem separateLoop_safe {σ α : Type} (G : StreamGenerator σ α)
    (env : SndFileEnv) (nTracks n wfuel : Nat) (hn : n < 2 ^ 63)
    (hshape : ∀ s, WellShaped nTracks n (G.ProcessAndGetAudio s).2) :
    ∀ (fuel : Nat) (s : σ) (calls br : Nat) (ofiles : List (Option (List α))),
      ¬ (separateLoop G env nTracks n wfuel fuel s calls br ofiles).IsFault := by
  intro fuel
  induction fuel with
  | zero => intro s calls br ofiles; simp [separateLoop, Outcome.IsFault]
  | succ fuel ih =>
    intro s calls br ofiles
    unfold separateLoop
    simp only []
    by_cases h1 : G.HasStreamEnded (G.ProcessAndGetAudio s).1 = true
    · rw [if_pos h1]; simp [Outcome.IsFault]
    · rw [if_neg h1, if_neg (by simpa using (hshape s).1)]
      apply Outcome.bind_not_fault
      · exact writeTracks_safe env nTracks n wfuel hn _ (hshape s) _ _
          (fun i hi => List.mem_range.1 hi)
      · intro ofiles1 _
        exact ih _ _ _ _

theorem exportSong_benchmark {σ α : Type} [Add α] [Zero α] (G : StreamGenerator σ α)
    (env : SndFileEnv) (seperate : Bool) (nTracks fuel : Nat) (s0 : σ) :
    exportSong G env true seperate nTracks fuel s0 = benchmarkLoop G fuel s0 0 0 := by
  simp [exportSong]

theorem exportSong_separate {σ α : Type} [Add α] [Zero α] (G : StreamGenerator σ α)
    (env : SndFileEnv) (nTracks fuel : Nat) (s0 : σ) :
    exportSong G env false true nTracks fuel s0 =
      separateLoop G env nTracks ((G.GetBufferUnitCount * N_CHANNELS) % SIZE_T_MOD) fuel fuel s0 0 0
        (filesOf env nTracks fun _ => []) := by
  simp [exportSong, filesOf]

theorem exportSong_combined_closed {σ α : Type} [Add α] [Zero α] (G : StreamGenerator σ α)
    (env : SndFileEnv) (nTracks fuel : Nat) (s0 : σ) (ho : env.opens 0 = false) :
    exportSong G env false false nTracks fuel s0 =
      .returned { blocksRendered := 0, calls := 0, files := [none] } := by
  simp [exportSong, ho]

theorem exportSong_combined_open {σ α : Type} [Add α] [Zero α] (G : StreamGenerator σ α)
    (env : SndFileEnv) (nTracks fuel : Nat) (s0 : σ) (ho : env.opens 0 = true) :
    exportSong G env false false nTracks fuel s0 =
      combinedLoop G env nTracks ((G.GetBufferUnitCount * N_CHANNELS) % SIZE_T_MOD) fuel fuel s0 0 0
        [] (List.replicate ((G.GetBufferUnitCount * N_CHANNELS) % SIZE_T_MOD) 0) := by
  simp [exportSong, ho]

/-- A generator whose every block has one buffer per track, each of
`nBlocks * N_CHANNELS` items, never makes `exportSong` fail an assertion or read
outside a buffer, in any mode, with any file system answers, for any fuel. -/
theorem exportSong_safe {σ α : Type} [Add α] [Zero α] (G : StreamGenerator σ α)
    (env : SndFileEnv) (benchmarkOnly seperate : Bool) (nTracks fuel : Nat) (s0 : σ)
    (hn : G.GetBufferUnitCount * N_CHANNELS < 2 ^ 63)
    (hshape : ∀ s, WellShaped nTracks (G.GetBufferUnitCount * N_CHANNELS)
      (G.ProcessAndGetAudio s).2) :
    ¬ (exportSong G env benchmarkOnly seperate nTracks fuel s0).IsFault := by
  have hmod : G.GetBufferUnitCount * N_CHANNELS % SIZE_T_MOD = G.GetBufferUnitCount * N_CHANNELS :=
    Nat.mod_eq_of_lt (by unfold SIZE_T_MOD; omega)
  cases benchmarkOnly
  · cases seperate
    · cases ho : env.opens 0
      · rw [exportSong_combined_closed G env nTracks fuel s0 ho]
        simp [Outcome.IsFault]
      · rw [exportSong_combined_open G env nTracks fuel s0 ho, hmod]
        exact combinedLoop_safe G env nTracks _ fuel hn hshape fuel s0 0 0 [] _ (by simp)
    · rw [exportSong_separate, hmod]
      exact separateLoop_safe G env nTracks _ fuel hn hshape fuel s0 0 0 _
  · rw [exportSong_benchmark]
    exact benchmarkLoop_safe G fuel s0 0 0

/-! ### The spec's stream generator -/

theorem SpecStream.trackBuffer_length {σ α : Type} [Add α] [Zero α] (S : SpecStream σ α) (s : σ)
    (t : Nat) : (S.trackBuffer s t).length = 2 * S.blockSamples := by
  unfold SpecStream.trackBuffer
  simp only [List.length_map, List.length_range]
  generalize hz : List.replicate (2 * S.blockSamples) (0 : α) = z
  have hzl : z.length = 2 * S.blockSamples := by rw [← hz]; simp
  clear hz
  induction S.voices s t generalizing z with
  | nil => simpa using hzl
  | cons v vs ih =>
    rw [List.foldl_cons]
    exact ih _ (by simpa using hzl)

theorem SpecStream.block_wellShaped {σ α : Type} [Add α] [Zero α] (S : SpecStream σ α) (s : σ) :
    WellShaped S.nTracks (2 * S.blockSamples) (S.ProcessAndGetAudio s).2 := by
  unfold SpecStream.ProcessAndGetAudio WellShaped
  simp only [List.length_map, List.length_range, List.mem_map, List.mem_range, true_and]
  rintro b ⟨t, _, rfl⟩
  exact S.trackBuffer_length _ t

/-! ### `exportSong`: the claims -/

theorem flatMap_blocks_getElem? {β : Type} (n : Nat) :
    ∀ (m : Nat) (f : Nat → List β), (∀ j, j < m → (f j).length = n) →
      ∀ j i, j < m → i < n → ((List.range m).flatMap f)[j * n + i]? = (f j)[i]? := by
  intro m
  induction m with
  | zero => intro f _ j i hj; omega
  | succ m ih =>
    intro f hlen j i hj hi
    rw [bind_range_shift]
    cases j with
    | zero =>
      rw [Nat.zero_mul, Nat.zero_add, List.getElem?_append_left (by rw [hlen 0 (by omega)]; exact hi)]
    | succ j =>
      have h0 : (f 0).length = n := hlen 0 (by omega)
      rw [List.getElem?_append_right (by rw [h0]; nlinarith)]
      have e : (j + 1) * n + i - (f 0).length = j * n + i := by
        rw [h0, Nat.succ_mul]; omega
      rw [e]
      exact ih (fun j => f (j + 1)) (fun j hj => hlen (j + 1) (by omega)) j i (by omega) hi

theorem flatMap_blocks_length {β : Type} (n : Nat) :
    ∀ (m : Nat) (f : Nat → List β), (∀ j, j < m → (f j).length = n) →
      ((List.range m).flatMap f).length = m * n := by
  intro m
  induction m with
  | zero => intro f _; simp
  | succ m ih =>
    intro f hlen
    rw [bind_range_shift, List.length_append, hlen 0 (by omega),
      ih (fun j => f (j + 1)) (fun j hj => hlen (j + 1) (by omega)), Nat.succ_mul]
    omega

theorem masterBlock_getElem? {α : Type} [Add α] [Zero α] (n : Nat) (rbuffers : List (List α))
    (i : Nat) (hi : i < n) : (masterBlock n rbuffers)[i]? = some (masterSample rbuffers i) := by
  unfold masterBlock
  rw [List.getElem?_map, List.getElem?_range hi]
  rfl

/-- C1: in combined mode, with the output file open, a writer that makes progress
and a stream that ends on call `k` whose blocks before that have one buffer per
track of `nBlocks * N_CHANNELS` items, `exportSong` returns, and the file holds,
for every written block `j` (the block of call `j + 1`, `j + 1 < k`) and every
index `i < nBlocks * N_CHANNELS`, at position `j * (nBlocks * N_CHANNELS) + i`
the left-to-right sum from zero of `rbuffers[t][i]` over the tracks in ascending
order: the plain sum, nothing of an earlier block in it.  For a single round of the
loop: whatever the mixing buffer held before, the round appends to the file
exactly the master block of the buffers it was given. -/
theorem combined_master_is_track_sum {σ α : Type} [Add α] [Zero α] (G : StreamGenerator σ α)
    (env : SndFileEnv) (nTracks fuel k : Nat) (s0 : σ)
    (hopen : env.opens 0 = true) (hpr : env.Progresses)
    (hn : G.GetBufferUnitCount * N_CHANNELS < 2 ^ 63)
    (hend : EndsAt G s0 k)
    (hshape : ∀ j, j + 1 < k →
      WellShaped nTracks (G.GetBufferUnitCount * N_CHANNELS) (blockOf G s0 j))
    (hfuel : k ≤ fuel) (hwfuel : G.GetBufferUnitCount * N_CHANNELS < fuel) :
    (∀ (rbuffers : List (List α)) (renderedData ofile : List α),
      renderedData.length = G.GetBufferUnitCount * N_CHANNELS →
      WellShaped nTracks (G.GetBufferUnitCount * N_CHANNELS) rbuffers →
      ((mixTracks (List.replicate renderedData.length 0) rbuffers).bind fun mixed =>
          writeAll env (toSfCount (G.GetBufferUnitCount * N_CHANNELS)) mixed fuel ofile 0) =
        .returned (ofile ++ masterBlock (G.GetBufferUnitCount * N_CHANNELS) rbuffers)) ∧
    ∃ r file, exportSong G env false false nTracks fuel s0 = .returned r ∧
      r.files = [some file] ∧
      file = (List.range (k - 1)).flatMap
        (fun j => masterBlock (G.GetBufferUnitCount * N_CHANNELS) (blockOf G s0 j)) ∧
      file.length = (k - 1) * (G.GetBufferUnitCount * N_CHANNELS) ∧
      ∀ j i, j + 1 < k → i < G.GetBufferUnitCount * N_CHANNELS →
        file[j * (G.GetBufferUnitCount * N_CHANNELS) + i]? =
          some (masterSample (blockOf G s0 j) i) := by
  have hmod : G.GetBufferUnitCount * N_CHANNELS % SIZE_T_MOD = G.GetBufferUnitCount * N_CHANNELS :=
    Nat.mod_eq_of_lt (by unfold SIZE_T_MOD; omega)
  constructor
  · intro rbuffers renderedData ofile hrd hs
    rw [mixTracks_zero _ renderedData.length _ hs.2 hrd, toSfCount_of_lt _ hn]
    simp only [Outcome.bind]
    have hw := writeAll_progress env hpr (G.GetBufferUnitCount * N_CHANNELS)
      (masterBlock (G.GetBufferUnitCount * N_CHANNELS) rbuffers)
      (by rw [masterBlock_length]) fuel ofile 0 (by omega) (by omega)
    simp only [Nat.cast_zero, List.drop_zero, Nat.sub_zero] at hw
    rw [hw, List.take_of_length_le (by rw [masterBlock_length])]
  rw [exportSong_combined_open G env nTracks fuel s0 hopen, hmod,
    combinedLoop_run G env hpr nTracks _ fuel hn hwfuel k fuel s0 0 0 [] _ hend hshape (by simp)
      hfuel (by unfold SIZE_T_MOD; norm_num)]
  simp only [List.nil_append]
  refine ⟨_, _, rfl, rfl, rfl, ?_, ?_⟩
  · exact flatMap_blocks_length _ _ _ (fun j _ => masterBlock_length _ _)
  · intro j i hj hi
    rw [flatMap_blocks_getElem? _ _ _ (fun j _ => masterBlock_length _ _) j i (by omega) hi]
    exact masterBlock_getElem? _ _ i hi

/-- C3, amended: for a stream that ends on call `k`, with fuel for `k` rounds,
benchmark mode returns after exactly `k` calls and writes no file.  When also
every block before call `k` has one buffer per track of `nBlocks * N_CHANNELS`
items and the writer makes progress: separate mode returns after exactly `k`
calls and the file of every track that opened holds that track's buffers of the
calls `1 .. k - 1` in call order, each once, a file that did not open nothing;
combined mode with the file open returns after exactly `k` calls and the file
holds the mixed blocks of the calls `1 .. k - 1` in call order, each once;
combined mode with the file not open returns 0 without any call.  The block of
call `k` is never written; for `k = 1` no sample is written. -/
theorem exportSong_calls_and_data {σ α : Type} [Add α] [Zero α] (G : StreamGenerator σ α)
    (env : SndFileEnv) (nTracks fuel k : Nat) (s0 : σ)
    (hend : EndsAt G s0 k) (hfuel : k ≤ fuel) :
    (∀ seperate, ∃ r, exportSong G env true seperate nTracks fuel s0 = .returned r ∧
        r.calls = k ∧ r.files = []) ∧
    (env.opens 0 = false →
      exportSong G env false false nTracks fuel s0 =
        .returned { blocksRendered := 0, calls := 0, files := [none] }) ∧
    (env.Progresses → G.GetBufferUnitCount * N_CHANNELS < 2 ^ 63 →
      G.GetBufferUnitCount * N_CHANNELS < fuel →
      (∀ j, j + 1 < k →
        WellShaped nTracks (G.GetBufferUnitCount * N_CHANNELS) (blockOf G s0 j)) →
      (∃ r, exportSong G env false true nTracks fuel s0 = .returned r ∧ r.calls = k ∧
        r.files = filesOf env nTracks (fun i => (List.range (k - 1)).flatMap fun j =>
          trackBlock (G.GetBufferUnitCount * N_CHANNELS) (blockOf G s0 j) i) ∧
        (k = 1 → r.files = filesOf env nTracks fun _ => [])) ∧
      (env.opens 0 = true →
        ∃ r, exportSong G env false false nTracks fuel s0 = .returned r ∧ r.calls = k ∧
          r.files = [some ((List.range (k - 1)).flatMap fun j =>
            masterBlock (G.GetBufferUnitCount * N_CHANNELS) (blockOf G s0 j))] ∧
          (k = 1 → r.files = [some []]))) := by
  refine ⟨?_, ?_, ?_⟩
  · intro seperate
    rw [exportSong_benchmark, benchmarkLoop_run G k fuel s0 0 0 hend hfuel
      (by unfold SIZE_T_MOD; norm_num)]
    exact ⟨_, rfl, by simp, rfl⟩
  · intro ho
    exact exportSong_combined_closed G env nTracks fuel s0 ho
  · intro hpr hn hwfuel hshape
    have hmod : G.GetBufferUnitCount * N_CHANNELS % SIZE_T_MOD =
        G.GetBufferUnitCount * N_CHANNELS := Nat.mod_eq_of_lt (by unfold SIZE_T_MOD; omega)
    constructor
    · rw [exportSong_separate, hmod,
        separateLoop_run G env hpr nTracks _ fuel hn hwfuel k fuel s0 0 0 _ hend hshape hfuel
          (by unfold SIZE_T_MOD; norm_num)]
      refine ⟨_, rfl, by simp, by simp, ?_⟩
      intro hk
      subst hk
      simp
    · intro hopen
      rw [exportSong_combined_open G env nTracks fuel s0 hopen, hmod,
        combinedLoop_run G env hpr nTracks _ fuel hn hwfuel k fuel s0 0 0 [] _ hend hshape
          (by simp) hfuel (by unfold SIZE_T_MOD; norm_num)]
      refine ⟨_, rfl, by simp, by simp, ?_⟩
      intro hk
      subst hk
      simp

/-- C2: every block the spec's generator returns has exactly one buffer per track,
each of `2 * blockSamples` items with `blockSamples = GetBufferUnitCount()`;
hence, with `N_CHANNELS = 2` (and `2 * blockSamples` in the range of
`sf_count_t`), `exportSong` on such a generator fails no assertion and reads
outside no buffer, in any mode, with any answers of libsndfile, however long it
runs. -/
theorem specStream_blocks_fit {σ α : Type} [Add α] [Zero α] (S : SpecStream σ α) (s0 : σ) :
    (∀ j, (blockOf S.toStreamGenerator s0 j).length = S.nTracks ∧
        ∀ b ∈ blockOf S.toStreamGenerator s0 j,
          b.length = 2 * S.toStreamGenerator.GetBufferUnitCount) ∧
    (2 * S.blockSamples < 2 ^ 63 →
      ∀ (env : SndFileEnv) (benchmarkOnly seperate : Bool) (fuel : Nat),
        exportSong S.toStreamGenerator env benchmarkOnly seperate S.nTracks fuel s0 ≠
            .assertFailed ∧
          exportSong S.toStreamGenerator env benchmarkOnly seperate S.nTracks fuel s0 ≠
            .outOfBounds) := by
  constructor
  · intro j
    exact S.block_wellShaped _
  · intro h env benchmarkOnly seperate fuel
    have hsafe := exportSong_safe S.toStreamGenerator env benchmarkOnly seperate S.nTracks fuel s0
      (by show S.blockSamples * 2 < 2 ^ 63; omega)
      (fun s => by
        have := S.block_wellShaped s
        rw [Nat.mul_comm] at this
        exact this)
    constructor
    · intro he; rw [he] at hsafe; exact hsafe trivial
    · intro he; rw [he] at hsafe; exact hsafe trivial

/-! ### `Export` -/

theorem renderLoop_outcome (renderOne : List Char → Nat → Outcome Nat) (outputDir : List Char)
    (tEnts : List SongEntry) :
    ∀ (idxs : List Nat) (total : Nat) (effects : List Effect),
      (renderLoop renderOne outputDir tEnts idxs total effects).1 = .finished ∨
      ∃ o, (renderLoop renderOne outputDir tEnts idxs total effects).1 = .stopped o := by
  intro idxs
  induction idxs with
  | nil => intro total effects; exact Or.inl rfl
  | cons i rest ih =>
    intro total effects
    unfold renderLoop
    simp only []
    cases renderOne (fileNameOf outputDir (i + 1) (replaceSlashes (tEnts.getD i ⟨[], 0⟩).name))
        (tEnts.getD i ⟨[], 0⟩).uid with
    | returned r => exact ih _ _
    | assertFailed => exact Or.inr ⟨_, rfl⟩
    | outOfBounds => exact Or.inr ⟨_, rfl⟩
    | outOfFuel => exact Or.inr ⟨_, rfl⟩

theorem checkOutputDir_msg (fs : FsEnv) (outputDir : List Char) (msg : String)
    (h : (checkOutputDir fs outputDir).1 = some msg) :
    msg ≠ "SoundExporter: input vectors do not match" := by
  unfold checkOutputDir at h
  split_ifs at h <;> simp at h <;> subst h <;> decide

/-- C9: `Export` throws "SoundExporter: input vectors do not match" if and only if
`entries.size() != ticked.size()`, and then it has had no effect at all: no
file system call, no song rendered, nothing printed. -/
theorem export_size_mismatch_iff (fs : FsEnv) (renderOne : List Char → Nat → Outcome Nat)
    (outputDir : List Char) (entries : List SongEntry) (ticked : List Bool) :
    ((Export fs renderOne outputDir entries ticked).outcome =
        .threw "SoundExporter: input vectors do not match" ↔
      entries.length ≠ ticked.length) ∧
    (entries.length ≠ ticked.length →
      (Export fs renderOne outputDir entries ticked).effects = []) := by
  by_cases hlen : entries.length = ticked.length
  · refine ⟨⟨fun h => ?_, fun h => absurd hlen h⟩, fun h => absurd hlen h⟩
    exfalso
    unfold Export at h
    rw [if_neg (not_not.2 hlen)] at h
    simp only [] at h
    rcases hc : checkOutputDir fs outputDir with ⟨m, eff0⟩
    rw [hc] at h
    cases m with
    | some msg =>
      simp only [ExportEnd.threw.injEq] at h
      exact checkOutputDir_msg fs outputDir msg (by rw [hc]) h
    | none =>
      simp only [] at h
      rcases hr : renderLoop renderOne outputDir
          (collectTicked entries ticked (List.range entries.length) [])
          (List.range (collectTicked entries ticked (List.range entries.length) []).length) 0 eff0
        with ⟨o, total, eff⟩
      rw [hr] at h
      have ho := renderLoop_outcome renderOne outputDir
          (collectTicked entries ticked (List.range entries.length) [])
          (List.range (collectTicked entries ticked (List.range entries.length) []).length) 0 eff0
      rw [hr] at ho
      rcases ho with ho | ⟨o1, ho⟩ <;> simp only at ho <;> subst ho <;> simp at h
  · refine ⟨⟨fun _ => hlen, fun _ => ?_⟩, fun _ => ?_⟩ <;>
    · unfold Export
      rw [if_pos hlen]

theorem collectTicked_eq_filterMap (entries : List SongEntry) (ticked : List Bool) :
    ∀ (idxs : List Nat) (tEnts : List SongEntry),
      collectTicked entries ticked idxs tEnts =
        tEnts ++ idxs.filterMap fun i =>
          if ticked.getD i false then some (entries.getD i ⟨[], 0⟩) else none := by
  intro idxs
  induction idxs with
  | nil => intro tEnts; simp [collectTicked]
  | cons i rest ih =>
    intro tEnts
    unfold collectTicked
    cases ht : ticked.getD i false
    · rw [List.filterMap_cons]
      simp only [ht, Bool.not_false, if_true, Bool.false_eq_true, if_false]
      exact ih tEnts
    · rw [List.filterMap_cons]
      simp only [ht, Bool.not_true, Bool.false_eq_true, if_false, if_true]
      rw [ih, List.append_assoc]
      rfl

theorem filterMap_range_select :
    ∀ (entries : List SongEntry) (ticked : List Bool), entries.length = ticked.length →
      ((List.range entries.length).filterMap fun i =>
          if ticked.getD i false then some (entries.getD i ⟨[], 0⟩) else none) =
        selectTicked entries ticked := by
  intro entries
  induction entries with
  | nil => intro ticked _; cases ticked <;> simp [selectTicked]
  | cons e es ih =>
    intro ticked hlen
    cases ticked with
    | nil => simp at hlen
    | cons t ts =>
      have hl : es.length = ts.length := by simpa using hlen
      rw [List.length_cons, List.range_succ_eq_map, List.filterMap_cons, List.filterMap_map]
      have ih1 := ih ts hl
      cases t
      · simp only [selectTicked, List.getD_cons_zero, Bool.false_eq_true, if_false]
        rw [← ih1]
        rfl
      · simp only [selectTicked, List.getD_cons_zero, if_true]
        rw [← ih1]
        rfl

/-- The first loop of `Export` collects the subsequence of `entries` that `ticked`
selects. -/
theorem collectTicked_eq_select (entries : List SongEntry) (ticked : List Bool)
    (hlen : entries.length = ticked.length) :
    collectTicked entries ticked (List.range entries.length) [] = selectTicked entries ticked := by
  rw [collectTicked_eq_filterMap, List.nil_append, filterMap_range_select entries ticked hlen]

theorem selectTicked_sublist :
    ∀ (entries : List SongEntry) (ticked : List Bool),
      (selectTicked entries ticked).Sublist entries := by
  intro entries
  induction entries with
  | nil => intro ticked; cases ticked <;> simp [selectTicked]
  | cons e es ih =>
    intro ticked
    cases ticked with
    | nil => simp [selectTicked]
    | cons t ts =>
      cases t
      · simpa [selectTicked] using (ih ts).cons e
      · simpa [selectTicked] using (ih ts).cons₂ e

theorem selectTicked_length :
    ∀ (entries : List SongEntry) (ticked : List Bool), entries.length = ticked.length →
      (selectTicked entries ticked).length = ticked.count true := by
  intro entries
  induction entries with
  | nil => intro ticked h; cases ticked <;> simp_all [selectTicked]
  | cons e es ih =>
    intro ticked hlen
    cases ticked with
    | nil => simp at hlen
    | cons t ts =>
      have hl : es.length = ts.length := by simpa using hlen
      cases t <;> simp [selectTicked, ih ts hl]

theorem expectedCalls_length (outputDir : List Char) :
    ∀ (tEnts : List SongEntry) (first : Nat),
      (expectedCalls outputDir first tEnts).length = tEnts.length := by
  intro tEnts
  induction tEnts with
  | nil => intro first; rfl
  | cons e es ih => intro first; simp [expectedCalls, ih]

theorem renderedSongs_append (a b : List Effect) :
    renderedSongs (a ++ b) = renderedSongs a ++ renderedSongs b := by
  induction a with
  | nil => rfl
  | cons x xs ih => cases x <;> simp [renderedSongs, ih]

/-- The call that round `i` of the render loop makes. -/
theorem expectedCalls_eq_map (outputDir : List Char) :
    ∀ (tEnts : List SongEntry) (first : Nat),
      expectedCalls outputDir first tEnts =
        (List.range tEnts.length).map fun i =>
          (fileNameOf outputDir (i + first) (replaceSlashes (tEnts.getD i ⟨[], 0⟩).name),
            (tEnts.getD i ⟨[], 0⟩).uid) := by
  intro tEnts
  induction tEnts with
  | nil => intro first; rfl
  | cons e es ih =>
    intro first
    rw [List.length_cons, List.range_succ_eq_map, List.map_cons, List.map_map, expectedCalls,
      ih (first + 1)]
    simp only [List.getD_cons_zero, Nat.zero_add, List.cons.injEq, true_and]
    apply List.map_congr_left
    intro i _
    simp only [Function.comp, Nat.succ_eq_add_one, List.getD_cons_succ]
    rw [Nat.add_assoc, Nat.add_comm 1 first]

theorem renderLoop_run (renderOne : List Char → Nat → Outcome Nat) (outputDir : List Char)
    (tEnts : List SongEntry) :
    ∀ (idxs : List Nat) (total : Nat) (effects : List Effect),
      (∀ i ∈ idxs, ∃ r,
        renderOne (fileNameOf outputDir (i + 1) (replaceSlashes (tEnts.getD i ⟨[], 0⟩).name))
          (tEnts.getD i ⟨[], 0⟩).uid = .returned r) →
      (renderLoop renderOne outputDir tEnts idxs total effects).1 = .finished ∧
      renderedSongs (renderLoop renderOne outputDir tEnts idxs total effects).2.2 =
        renderedSongs effects ++ idxs.map fun i =>
          (fileNameOf outputDir (i + 1) (replaceSlashes (tEnts.getD i ⟨[], 0⟩).name),
            (tEnts.getD i ⟨[], 0⟩).uid) := by
  intro idxs
  induction idxs with
  | nil => intro total effects _; simp [renderLoop]
  | cons i rest ih =>
    intro total effects hall
    obtain ⟨r, hr⟩ := hall i (List.mem_cons_self _ _)
    unfold renderLoop
    simp only [hr]
    have := ih ((total + r) % SIZE_T_MOD)
      (effects ++ [.printRendering (((i + 1) * 100 % SIZE_T_MOD) / tEnts.length)
          (replaceSlashes (tEnts.getD i ⟨[], 0⟩).name),
        .renderSong (fileNameOf outputDir (i + 1) (replaceSlashes (tEnts.getD i ⟨[], 0⟩).name))
          (tEnts.getD i ⟨[], 0⟩).uid])
      (fun j hj => hall j (List.mem_cons_of_mem _ hj))
    refine ⟨this.1, ?_⟩
    rw [this.2, renderedSongs_append]
    simp [renderedSongs]

theorem renderLoop_stops_rendered (renderOne : List Char → Nat → Outcome Nat)
    (outputDir : List Char) (tEnts : List SongEntry) (idxs : List Nat) (total : Nat)
    (effects : List Effect) :
    ∃ more, (renderLoop renderOne outputDir tEnts idxs total effects).2.2 = effects ++ more := by
  induction idxs generalizing total effects with
  | nil => exact ⟨[], by simp [renderLoop]⟩
  | cons i rest ih =>
    unfold renderLoop
    simp only []
    cases renderOne (fileNameOf outputDir (i + 1) (replaceSlashes (tEnts.getD i ⟨[], 0⟩).name))
        (tEnts.getD i ⟨[], 0⟩).uid with
    | returned r =>
      obtain ⟨more, hm⟩ := ih ((total + r) % SIZE_T_MOD)
        (effects ++ [.printRendering (((i + 1) * 100 % SIZE_T_MOD) / tEnts.length)
            (replaceSlashes (tEnts.getD i ⟨[], 0⟩).name),
          .renderSong (fileNameOf outputDir (i + 1)
            (replaceSlashes (tEnts.getD i ⟨[], 0⟩).name)) (tEnts.getD i ⟨[], 0⟩).uid])
      exact ⟨_, by rw [hm, List.append_assoc]⟩
    | assertFailed => exact ⟨_, rfl⟩
    | outOfBounds => exact ⟨_, rfl⟩
    | outOfFuel => exact ⟨_, rfl⟩

theorem checkOutputDir_ready (fs : FsEnv) (outputDir : List Char) (h : fs.DirReady outputDir) :
    (checkOutputDir fs outputDir).1 = none ∧
      renderedSongs (checkOutputDir fs outputDir).2 = [] := by
  unfold checkOutputDir
  rcases h with ⟨h1, h2⟩ | ⟨h1, h2⟩ <;> simp [h1, h2, renderedSongs]

theorem checkOutputDir_not_ready (fs : FsEnv) (outputDir : List Char)
    (h : ¬ fs.DirReady outputDir) :
    (∃ msg, (checkOutputDir fs outputDir).1 = some msg) ∧
      renderedSongs (checkOutputDir fs outputDir).2 = [] := by
  unfold checkOutputDir
  unfold FsEnv.DirReady at h
  cases h1 : fs.pathExists outputDir <;> cases h2 : fs.is_directory outputDir <;>
    cases h3 : fs.create_directory outputDir <;> simp_all [renderedSongs]

/-- C10, amended: for `entries` and `ticked` of equal length, when the output
directory exists as a directory or is created and every `exportSong` call
returns, `Export` finishes and renders exactly the entries with `ticked[i]` true,
in their order (a subsequence of `entries`, as many as there are true flags);
the `j`-th rendered song (from 1) is exported with its UID under the first 511
characters of `<outputDir>/<j, zero-padded to at least 3 digits> - <name with
every '/' replaced by '_'>` (all of it when it is that short).  When the
directory check fails, `Export` throws and renders nothing. -/
theorem export_renders_ticked (fs : FsEnv) (renderOne : List Char → Nat → Outcome Nat)
    (outputDir : List Char) (entries : List SongEntry) (ticked : List Bool)
    (hlen : entries.length = ticked.length) :
    (fs.DirReady outputDir →
      (∀ c ∈ expectedCalls outputDir 1 (selectTicked entries ticked),
        ∃ r, renderOne c.1 c.2 = .returned r) →
      (Export fs renderOne outputDir entries ticked).outcome = .finished ∧
      renderedSongs (Export fs renderOne outputDir entries ticked).effects =
        expectedCalls outputDir 1 (selectTicked entries ticked)) ∧
    (¬ fs.DirReady outputDir →
      (∃ msg, (Export fs renderOne outputDir entries ticked).outcome = .threw msg) ∧
      renderedSongs (Export fs renderOne outputDir entries ticked).effects = []) ∧
    (selectTicked entries ticked).Sublist entries ∧
    (selectTicked entries ticked).length = ticked.count true ∧
    (expectedCalls outputDir 1 (selectTicked entries ticked)).length = ticked.count true ∧
    (∀ (j : Nat) (name : List Char),
      (fileNameOf outputDir j (replaceSlashes name)).length ≤ 511 ∧
      ((baseName outputDir j (replaceSlashes name)).length ≤ 511 →
        fileNameOf outputDir j (replaceSlashes name) =
          baseName outputDir j (replaceSlashes name))) := by
  refine ⟨?_, ?_, selectTicked_sublist _ _, selectTicked_length _ _ hlen, ?_, ?_⟩
  · intro hdir hret
    obtain ⟨hc1, hc2⟩ := checkOutputDir_ready fs outputDir hdir
    unfold Export
    rw [if_neg (not_not.2 hlen), collectTicked_eq_select entries ticked hlen]
    simp only []
    rcases hc : checkOutputDir fs outputDir with ⟨m, eff0⟩
    rw [hc] at hc1 hc2
    simp only at hc1 hc2
    subst hc1
    simp only []
    have hrun := renderLoop_run renderOne outputDir (selectTicked entries ticked)
      (List.range (selectTicked entries ticked).length) 0 eff0
      (fun i hi => by
        apply hret (fileNameOf outputDir (i + 1)
          (replaceSlashes ((selectTicked entries ticked).getD i ⟨[], 0⟩).name),
          ((selectTicked entries ticked).getD i ⟨[], 0⟩).uid)
        rw [expectedCalls_eq_map]
        exact List.mem_map.2 ⟨i, hi, rfl⟩)
    rcases hr : renderLoop renderOne outputDir (selectTicked entries ticked)
        (List.range (selectTicked entries ticked).length) 0 eff0 with ⟨o, total, eff⟩
    rw [hr] at hrun
    simp only at hrun
    obtain ⟨ho, heff⟩ := hrun
    subst ho
    simp only [true_and]
    rw [renderedSongs_append, heff, hc2, expectedCalls_eq_map]
    simp [renderedSongs]
  · intro hdir
    obtain ⟨⟨msg, hc1⟩, hc2⟩ := checkOutputDir_not_ready fs outputDir hdir
    unfold Export
    rw [if_neg (not_not.2 hlen)]
    simp only []
    rcases hc : checkOutputDir fs outputDir with ⟨m, eff0⟩
    rw [hc] at hc1 hc2
    simp only at hc1 hc2
    subst hc1
    exact ⟨⟨msg, rfl⟩, hc2⟩
  · rw [expectedCalls_length, selectTicked_length _ _ hlen]
  · intro j name
    refine ⟨by unfold fileNameOf; simp, fun h => ?_⟩
    unfold fileNameOf
    exact List.take_of_length_le h

/-- C10, as stated, fails: with an output path that exists as a regular file,
`Export` throws and renders nothing although one entry is ticked; and an entry
whose name has 600 characters is exported under a file name of 511 characters,
not under its base name of 608 characters. -/
theorem export_renders_ticked_counterexample :
    ((Export pathIsFile (fun _ _ => .returned 0) ['o'] demoEntries [true, false, true]).outcome =
        .threw "Output directory exists but isn\x27t a dir" ∧
      renderedSongs
        (Export pathIsFile (fun _ _ => .returned 0) ['o'] demoEntries [true, false, true]).effects
        = []) ∧
    (renderedSongs (Export dirExists (fun _ _ => .returned 0) ['o'] [longEntry] [true]).effects =
        [(fileNameOf ['o'] 1 longEntry.name, 1)] ∧
      (fileNameOf ['o'] 1 longEntry.name).length = 511 ∧
      (baseName ['o'] 1 (replaceSlashes longEntry.name)).length = 608 ∧
      fileNameOf ['o'] 1 longEntry.name ≠ baseName ['o'] 1 (replaceSlashes longEntry.name)) := by
  refine ⟨⟨by decide, by decide⟩, ?_, ?_, ?_, ?_⟩
  · decide
  · decide
  · decide
  · decide

/-! ### Concrete runs -/

theorem demoStream_endsAt : EndsAt demoStream 0 3 := by
  refine ⟨by decide, by decide, ?_⟩
  intro j h1 h2
  interval_cases j <;> decide

theorem demoStream_shape (j : Nat) (hj : j + 1 < 3) :
    WellShaped 2 (demoStream.GetBufferUnitCount * N_CHANNELS) (blockOf demoStream 0 j) := by
  have hj2 : j < 2 := by omega
  interval_cases j <;> exact ⟨by decide, by decide⟩

theorem chunkWriter_progresses : chunkWriter.Progresses := by
  intro len req _
  show 0 < 3
  decide

theorem firstFileOnly_progresses : firstFileOnly.Progresses := by
  intro len req h
  exact h

/-- C1 at a concrete input: two tracks, two blocks written in chunks of three
items; the file holds `1 + 10, 2 + 20, 3 + 30, 4 + 40` and then
`2 + 10, 2 + 20, 3 + 30, 4 + 40`. -/
theorem combined_master_is_track_sum_witness :
    ∃ r, exportSong demoStream chunkWriter false false 2 10 0 = .returned r ∧
      r.files = [some [11, 22, 33, 44, 12, 22, 33, 44]] := by
  obtain ⟨_, r, file, hr, hfiles, hfile, _, _⟩ :=
    combined_master_is_track_sum demoStream chunkWriter 2 10 3 0 rfl chunkWriter_progresses
      (by decide) demoStream_endsAt demoStream_shape (by decide) (by decide)
  refine ⟨r, hr, ?_⟩
  rw [hfiles, hfile]
  decide

/-- C3, as stated, fails: the stream ends on its third call, yet in combined mode
with an output file that does not open `exportSong` returns without a single
call of `ProcessAndGetAudio`; and in separate mode the file of a track that did
not open gets none of the blocks. -/
theorem exportSong_calls_counterexample :
    EndsAt demoStream 0 3 ∧
    (∀ fuel, exportSong demoStream noFileOpens false false 2 fuel 0 =
      .returned { blocksRendered := 0, calls := 0, files := [none] }) ∧
    exportSong demoStream firstFileOnly false true 2 10 0 =
      .returned { blocksRendered := 4, calls := 3,
                  files := [some [1, 2, 3, 4, 2, 2, 3, 4], none] } := by
  refine ⟨demoStream_endsAt, fun fuel => ?_, by decide⟩
  exact exportSong_combined_closed demoStream noFileOpens 2 fuel 0 rfl

/-- C3, amended, at a concrete input: three calls in every mode that renders; the
files hold the blocks of the calls 1 and 2 only. -/
theorem exportSong_calls_and_data_witness :
    (∃ r, exportSong demoStream firstFileOnly true false 2 10 0 = .returned r ∧ r.calls = 3 ∧
      r.files = []) ∧
    (∃ r, exportSong demoStream firstFileOnly false true 2 10 0 = .returned r ∧ r.calls = 3 ∧
      r.files = [some [1, 2, 3, 4, 2, 2, 3, 4], none]) ∧
    (∃ r, exportSong demoStream firstFileOnly false false 2 10 0 = .returned r ∧ r.calls = 3 ∧
      r.files = [some [11, 22, 33, 44, 12, 22, 33, 44]]) := by
  obtain ⟨hb, _, hfile⟩ :=
    exportSong_calls_and_data demoStream firstFileOnly 2 10 3 0 demoStream_endsAt (by decide)
  obtain ⟨⟨rs, hrs, hcs, hfs, _⟩, hc⟩ :=
    hfile firstFileOnly_progresses (by decide) (by decide) demoStream_shape
  obtain ⟨rc, hrc, hcc, hfc, _⟩ := hc rfl
  refine ⟨hb false, ⟨rs, hrs, hcs, ?_⟩, ⟨rc, hrc, hcc, ?_⟩⟩
  · rw [hfs]; decide
  · rw [hfc]; decide

theorem writeAll_stuck {α : Type} (n : Nat) (hn : 0 < n) (buf : List α) (hbuf : n ≤ buf.length) :
    ∀ (fuel : Nat) (file : List α), writeAll stuckWriter (n : Int) buf fuel file 0 = .outOfFuel := by
  intro fuel
  induction fuel with
  | zero => intro file; rfl
  | succ fuel ih =>
    intro file
    unfold writeAll
    have hpos : ¬ ((n : Int) - 0 ≤ 0) := by omega
    have hsf : sf_write_float stuckWriter file buf (0 : Int).toNat ((n : Int) - 0) =
        some (file, 0) := by
      unfold sf_write_float
      rw [if_neg hpos, if_pos (by simpa using hbuf)]
      simp [stuckWriter]
    rw [hsf]
    simp only [Nat.cast_zero, Int.add_zero]
    rw [if_pos (by omega)]
    exact ih file

/-- C2 at a concrete input: the spec stream with one track and four samples per
channel yields one buffer of eight items, and `exportSong` runs on it in
combined mode to the end. -/
theorem specStream_blocks_fit_witness :
    blockOf demoSpecStream.toStreamGenerator 0 0 = [[2, 2, 2, 2, 2, 2, 2, 2]] ∧
    exportSong demoSpecStream.toStreamGenerator chunkWriter false false 1 10 0 =
      .returned { blocksRendered := 4, calls := 2, files := [some [2, 2, 2, 2, 2, 2, 2, 2]] } ∧
    (∀ fuel, exportSong demoSpecStream.toStreamGenerator chunkWriter false true
        demoSpecStream.nTracks fuel 0 ≠ .assertFailed) := by
  refine ⟨by decide, by decide, fun fuel => ?_⟩
  exact ((specStream_blocks_fit demoSpecStream 0).2 (by decide) chunkWriter false true fuel).1

/-- C10, amended, at a concrete input: of three entries the first and the third
are ticked; they are rendered as numbers 001 and 002, the slash of the first
name replaced. -/
theorem export_renders_ticked_witness :
    renderedSongs (Export dirExists (fun _ _ => .returned 0) ['o'] demoEntries
        [true, false, true]).effects =
      [(['o', '/', '0', '0', '1', ' ', '-', ' ', 'a', '_', 'b'], 7),
       (['o', '/', '0', '0', '2', ' ', '-', ' ', 'd'], 9)] := by
  have h := (export_renders_ticked dirExists (fun _ _ => .returned 0) ['o'] demoEntries
    [true, false, true] rfl).1 (Or.inl ⟨rfl, rfl⟩) (fun c _ => ⟨0, rfl⟩)
  rw [h.2]
  decide

end AgbPlay
